import Mathlib

/-!
Verification of the workflow execution engine of the `weavr` repository.

The development is a shallow embedding of the TypeScript sources:

* `src/types/workflow.ts`       — data model (`Workflow`, `WorkflowNode`, `WorkflowEdge`,
                                  `ExecutionContext`, `ApprovalRequest`, status enums);
* `src/lib/executor.ts`         — `WorkflowExecutor` (traversal loop, routing, validation,
                                  resume/cancel);
* `src/lib/nodes/*.ts`          — the per-kind node executors and `NodeExecutorFactory`;
* `src/lib/workflow-engine/retry-handler.ts` — `RetryHandler`;
* `src/lib/redis.ts`            — the durable store operations used by the engine.

Modelling conventions:

* JavaScript values flowing through `Record<string, any>` payloads are modelled by the
  mutual inductive `JValue`/`JArray`/`JFields` (undefined, null, booleans, numbers as ℚ,
  strings, arrays, objects; host objects such as `Math` appear as opaque `native` values).
* Timestamps (`new Date().toISOString()`, `Date.now()`) are modelled by a numeric clock
  `now : ℚ` passed explicitly; ISO strings are identified with their epoch value.
* The JavaScript evaluator reached through `new Function(...)`, the LLM client, and the
  outbound HTTP transport are external to the program; they are modelled as oracle
  parameters (`JsEval`, `ExtOracle`).  Everything the repository itself computes is
  translated directly.
* `Promise`s carry no concurrency inside one execution (the engine awaits every call), so
  `async` functions are modelled as pure state-passing functions over the store.
-/

/-! ## JavaScript value model -/

mutual
/-- JavaScript runtime values as they appear in the engine's `Record<string, any>`
payloads.  `undefined` models `undefined` (distinct from `null`); `native` stands for host
values (functions, `Math`, `JSON`, …) that the engine only ever passes through to the
external evaluator. -/
inductive JValue where
  | undefined
  | null
  | bool (b : Bool)
  | num (q : ℚ)
  | str (s : String)
  | arr (elems : JArray)
  | obj (fields : JFields)
  | native (tag : String)
  deriving DecidableEq

/-- A JavaScript array of `JValue`s. -/
inductive JArray where
  | nil
  | cons (hd : JValue) (tl : JArray)
  deriving DecidableEq

/-- The ordered field list of a JavaScript object. -/
inductive JFields where
  | nil
  | cons (key : String) (val : JValue) (tl : JFields)
  deriving DecidableEq
end

/-- JavaScript truthiness: `undefined`, `null`, `false`, `0` and `""` are falsy,
everything else (objects, arrays, non-zero numbers, non-empty strings, host values) is
truthy.  (`NaN` does not arise in the modelled fragment.) -/
def JValue.truthy : JValue → Bool
  | .undefined => false
  | .null => false
  | .bool b => b
  | .num q => decide (q ≠ 0)
  | .str s => decide (s ≠ "")
  | .arr _ => true
  | .obj _ => true
  | .native _ => true

/-- First field with the given key, if any. -/
def JFields.find? : JFields → String → Option JValue
  | .nil, _ => none
  | .cons k v tl, key => if k = key then some v else tl.find? key

/-- Insert-or-replace, keeping the original position of an existing key — the semantics
of `obj[key] = v` and of a spread-override on a JS object literal. -/
def JFields.set : JFields → String → JValue → JFields
  | .nil, key, v => .cons key v .nil
  | .cons k w tl, key, v =>
    if k = key then .cons k v tl else .cons k w (tl.set key v)

/-- Left-to-right merge `{...a, ...b}`: fields of `b` override fields of `a`. -/
def JFields.mergeRight (a b : JFields) : JFields :=
  match b with
  | .nil => a
  | .cons k v tl => (a.set k v).mergeRight tl

/-- Property read `v[key]` on an object; anything else (or a missing key) yields
`undefined`, as in JavaScript. -/
def JValue.get : JValue → String → JValue
  | .obj fields, key =>
    match fields.find? key with
    | some v => v
    | none => .undefined
  | _, _ => .undefined

/-- JavaScript `a || b`. -/
def jsOr (a b : JValue) : JValue := if a.truthy then a else b

/-- List of the values of a `JArray` (used to state theorems about aggregation). -/
def JArray.toList : JArray → List JValue
  | .nil => []
  | .cons x tl => x :: tl.toList

/-- Build a `JArray` from a list. -/
def JArray.ofList : List JValue → JArray
  | [] => .nil
  | x :: xs => .cons x (JArray.ofList xs)

/-- Association-list lookup (JS object / `Map` read), for the store maps. -/
def alistGet {α : Type} (xs : List (String × α)) (key : String) : Option α :=
  (xs.find? (fun x => x.1 = key)).map (fun x => x.2)

/-- Association-list insert-or-replace (JS object / `Map` write). -/
def alistSet {α : Type} (xs : List (String × α)) (key : String) (v : α) :
    List (String × α) :=
  if xs.any (fun x => x.1 = key) then
    xs.map (fun x => if x.1 = key then (key, v) else x)
  else
    xs ++ [(key, v)]

/-- Association-list delete (`client.del(key)`). -/
def alistDel {α : Type} (xs : List (String × α)) (key : String) : List (String × α) :=
  xs.filter (fun x => (x.1 ≠ key : Bool))

/-! ## JSON serialization

`JSON.stringify` as used by the engine: for keying the majority-vote map and for
substituting variable values into expressions.  Non-integral number formatting is not
needed by any claim; integers print exactly as in JavaScript. -/

/-- Render a number the way the modelled fragment needs it (integers exactly;
non-integral rationals via their reduced fraction — no claim depends on this corner). -/
def numToJs (q : ℚ) : String :=
  if q.den = 1 then toString q.num else toString q.num ++ "/" ++ toString q.den

mutual
/-- `JSON.stringify` (string escaping beyond quotes does not occur in the modelled
inputs; `undefined` and host values serialize to placeholder text, a corner no claim
touches). -/
def jsonStringify : JValue → String
  | .undefined => "undefined"
  | .null => "null"
  | .bool true => "true"
  | .bool false => "false"
  | .num q => numToJs q
  | .str s => "\"" ++ s ++ "\""
  | .arr xs => "[" ++ jsonStringifyElems xs ++ "]"
  | .obj fs => "\x7b" ++ jsonStringifyFields fs ++ "\x7d"
  | .native tag => "\"native:" ++ tag ++ "\""

/-- Comma-separated serialization of array elements. -/
def jsonStringifyElems : JArray → String
  | .nil => ""
  | .cons x .nil => jsonStringify x
  | .cons x tl => jsonStringify x ++ "," ++ jsonStringifyElems tl

/-- Comma-separated serialization of object fields. -/
def jsonStringifyFields : JFields → String
  | .nil => ""
  | .cons k v .nil => "\"" ++ k ++ "\":" ++ jsonStringify v
  | .cons k v tl => "\"" ++ k ++ "\":" ++ jsonStringify v ++ "," ++ jsonStringifyFields tl
end

/-! ## String utilities

The blacklist in `containsUnsafeCode` uses the regular expressions
`/require\s*\(/`, `/import\s+/`, `/eval\s*\(/`, `/Function\s*\(/`, `/setTimeout\s*\(/`,
`/setInterval\s*\(/`, `/process\./`, `/global\./`, `/window\./`, `/document\./`,
`/console\./`, `/__proto__/`, `/constructor/`, `/prototype/`.  These fall into three
shapes, modelled below over character lists: a literal substring, a keyword followed by
`\s*` then `(`, and a keyword followed by `\s+`. -/

/-- The characters matched by the regex class `\s` (the ASCII ones; the engine's
expressions are ASCII). -/
def isWsChar (c : Char) : Bool :=
  c = ' ' ∨ c = '\t' ∨ c = '\n' ∨ c = '\r' ∨ c = '\x0b' ∨ c = '\x0c'

/-- `cs` begins with the pattern `kw \s* (`. -/
def startsKwWsParen (kw : List Char) (cs : List Char) : Bool :=
  if cs.take kw.length = kw then
    match (cs.drop kw.length).dropWhile isWsChar with
    | '(' :: _ => true
    | _ => false
  else false

/-- `cs` begins with the pattern `kw \s+` (at least one whitespace character). -/
def startsKwWsPlus (kw : List Char) (cs : List Char) : Bool :=
  if cs.take kw.length = kw then
    match cs.drop kw.length with
    | c :: _ => isWsChar c
    | [] => false
  else false

/-- `cs` begins with the literal `kw`. -/
def startsLit (kw : List Char) (cs : List Char) : Bool :=
  cs.take kw.length = kw

/-- Some suffix of `cs` satisfies the prefix predicate `p` (regex "match anywhere"). -/
def anySuffix (p : List Char → Bool) : List Char → Bool
  | [] => p []
  | c :: cs => p (c :: cs) || anySuffix p cs

/-- `String.prototype.trim`: strip whitespace from both ends (ASCII whitespace; the
probed expressions are ASCII). -/
def strTrim (s : String) : String :=
  ⟨((s.data.dropWhile isWsChar).reverse.dropWhile isWsChar).reverse⟩

/-- `String.contains`-style substring test used to model `errorMessage.includes(x)`. -/
def strIncludes (hay needle : String) : Bool :=
  anySuffix (startsLit needle.data) hay.data

/-- ASCII lower-casing, modelling `String.prototype.toLowerCase` on the engine's
error messages. -/
def strLower (s : String) : String :=
  ⟨s.data.map Char.toLower⟩

/-! ## The expression-evaluation blacklist

`ConditionExecutor.containsUnsafeCode` and `LoopExecutor.containsUnsafeCode`
(`condition-executor.ts`, `loop-executor.ts`) are identical: the expression is rejected
iff one of the fourteen patterns above matches anywhere in it. -/

/-- `containsUnsafeCode(expression)` from `condition-executor.ts` / `loop-executor.ts`. -/
def containsUnsafeCode (expression : String) : Bool :=
  let cs := expression.data
  anySuffix (startsKwWsParen "require".data) cs ||
  anySuffix (startsKwWsPlus "import".data) cs ||
  anySuffix (startsKwWsParen "eval".data) cs ||
  anySuffix (startsKwWsParen "Function".data) cs ||
  anySuffix (startsKwWsParen "setTimeout".data) cs ||
  anySuffix (startsKwWsParen "setInterval".data) cs ||
  anySuffix (startsLit "process.".data) cs ||
  anySuffix (startsLit "global.".data) cs ||
  anySuffix (startsLit "window.".data) cs ||
  anySuffix (startsLit "document.".data) cs ||
  anySuffix (startsLit "console.".data) cs ||
  anySuffix (startsLit "__proto__".data) cs ||
  anySuffix (startsLit "constructor".data) cs ||
  anySuffix (startsLit "prototype".data) cs

/-! ## Variable interpolation

`replaceVariables` in `condition-executor.ts` / `loop-executor.ts`: a global replace of
`{{name}}` patterns, then of `${name}` patterns, substituting `JSON.stringify(value)`
when `name` is bound in the context and leaving the matched text otherwise
(`\w = [A-Za-z0-9_]`). -/

/-- A regex `\w` character. -/
def isWordChar (c : Char) : Bool :=
  c.isAlpha || c.isDigit || c = '_'

/-- One pass of `.replace(/\{\{(\w+)\}\}/g, ...)`: scan left to right with one-character
advance on a failed match, exactly as the regex engine does.  `subst` returns the
replacement for a captured name (`none` keeps the matched text, the
`value !== undefined ? ... : match` branch).  Fuel is the remaining length (each step
consumes at least one character). -/
def replaceCurlyGo (subst : String → Option String) : Nat → List Char → List Char
  | 0, cs => cs
  | _ + 1, [] => []
  | fuel + 1, c :: cs =>
    if c = '{' then
      match cs with
      | '{' :: rest =>
        let w := rest.takeWhile isWordChar
        let rest2 := rest.dropWhile isWordChar
        if w ≠ [] then
          match rest2 with
          | '}' :: '}' :: rest3 =>
            (match subst ⟨w⟩ with
             | some r => r.data ++ replaceCurlyGo subst fuel rest3
             | none => c :: '{' :: w ++ '}' :: '}' :: replaceCurlyGo subst fuel rest3)
          | _ => c :: replaceCurlyGo subst fuel cs
        else c :: replaceCurlyGo subst fuel cs
      | _ => c :: replaceCurlyGo subst fuel cs
    else c :: replaceCurlyGo subst fuel cs

/-- One pass of `.replace(/\$\{(\w+)\}/g, ...)`. -/
def replaceDollarGo (subst : String → Option String) : Nat → List Char → List Char
  | 0, cs => cs
  | _ + 1, [] => []
  | fuel + 1, c :: cs =>
    if c = '$' then
      match cs with
      | '{' :: rest =>
        let w := rest.takeWhile isWordChar
        let rest2 := rest.dropWhile isWordChar
        if w ≠ [] then
          match rest2 with
          | '}' :: rest3 =>
            (match subst ⟨w⟩ with
             | some r => r.data ++ replaceDollarGo subst fuel rest3
             | none => c :: '{' :: w ++ '}' :: replaceDollarGo subst fuel rest3)
          | _ => c :: replaceDollarGo subst fuel cs
        else c :: replaceDollarGo subst fuel cs
      | _ => c :: replaceDollarGo subst fuel cs
    else c :: replaceDollarGo subst fuel cs

/-- The substitution used by `replaceVariables`: `JSON.stringify` of the context value
when the name is bound. -/
def substFromCtx (ctxv : JFields) (w : String) : Option String :=
  (ctxv.find? w).map jsonStringify

/-- `replaceVariables(condition, context)`: the `{{name}}` pass followed by the
`${name}` pass. -/
def replaceVariables (condition : String) (ctxv : JFields) : String :=
  let pass1 := replaceCurlyGo (substFromCtx ctxv) condition.data.length condition.data
  ⟨replaceDollarGo (substFromCtx ctxv) pass1.length pass1⟩

/-- The `expression.replace(/\{\{(\w+)\}\}/g, 'true')` used by the config validators to
build their syntax-probe expression. -/
def replaceCurlyTrue (s : String) : String :=
  ⟨replaceCurlyGo (fun _ => some "true") s.data.length s.data⟩

example : containsUnsafeCode "process.env" = true := by decide
example : containsUnsafeCode "eval ('x')" = true := by decide
example : containsUnsafeCode "this" = false := by decide
example :
    replaceVariables "$! 2 + 2 = 2+2" .nil = "$! 2 + 2 = 2+2" := by decide
example :
    replaceVariables "a + 1" (.cons "a" (.num 2) .nil) = "a + 1" := by decide
example :
    replaceVariables "amount - 1" (.cons "amount" (.num 1500) .nil) = "amount - 1" := by
  decide
example :
    replaceVariables "\x7b\x7bamount\x7d\x7d > 1000" (.cons "amount" (.num 1500) .nil) =
      "1500 > 1000" := by decide
example :
    replaceVariables "\x7b\x7bx\x7d\x7d" .nil = "\x7b\x7bx\x7d\x7d" := by decide

/-! ## Data model (`src/types/workflow.ts`) -/

/-- `NodeType`. -/
inductive NodeType where
  | trigger
  | action
  | agent
  | humanApproval
  | condition
  | loop
  | spawnAgent
  deriving DecidableEq

/-- `ExecutionStatus`. -/
inductive ExecutionStatus where
  | running
  | paused
  | completed
  | failed
  | cancelled
  deriving DecidableEq

/-- `NodeStatus`. -/
inductive NodeStatus where
  | pending
  | running
  | completed
  | failed
  | skipped
  deriving DecidableEq

/-- The node-specific `config` record (`Record<string, any>` in the source, cast per
executor to one of the `*NodeConfig` interfaces).  Modelled as one flat record of
optional fields — exactly the fields the executors read; an absent field is JavaScript
`undefined`. -/
structure NodeConfig where
  triggerType : Option String := none
  webhookPath : Option String := none
  scheduleExpression : Option String := none
  actionType : Option String := none
  httpMethod : Option String := none
  httpUrl : Option String := none
  transformScript : Option String := none
  notificationType : Option String := none
  customScript : Option String := none
  promptTemplate : Option String := none
  model : Option String := none
  temperature : Option ℚ := none
  maxTokens : Option ℚ := none
  systemPrompt : Option String := none
  approvalMessage : Option String := none
  approverEmail : Option String := none
  timeoutMinutes : Option ℚ := none
  requireReason : Option Bool := none
  expression : Option String := none
  trueLabel : Option String := none
  falseLabel : Option String := none
  maxIterations : Option ℚ := none
  exitCondition : Option String := none
  loopVariable : Option String := none
  agentPrompt : Option String := none
  maxAgents : Option ℚ := none
  aggregationStrategy : Option String := none
  customAggregation : Option String := none
  deriving DecidableEq

/-- `WorkflowNode` (the `position` field is pure UI data and is dropped). -/
structure WorkflowNode where
  id : String
  type : NodeType
  label : String
  config : NodeConfig
  deriving DecidableEq

/-- `WorkflowEdge`. -/
structure WorkflowEdge where
  id : String
  source : String
  target : String
  condition : Option String := none
  label : Option String := none
  deriving DecidableEq

/-- `Workflow` (the `metadata` block is not read by the engine and is dropped). -/
structure Workflow where
  id : String
  name : String
  description : String
  nodes : List WorkflowNode
  edges : List WorkflowEdge
  deriving DecidableEq

/-- `ExecutionContext`.  Timestamps are the numeric clock values at which the engine
stamped them. -/
structure ExecutionContext where
  workflowId : String
  executionId : String
  status : ExecutionStatus
  currentNodeId : Option String
  stepResults : JFields
  «variables» : JFields
  startedAt : ℚ
  updatedAt : ℚ
  completedAt : Option ℚ := none
  error : Option String := none
  nodeStatuses : List (String × NodeStatus)
  nodeVisitCounts : List (String × Nat)
  parentExecutionId : Option String := none
  childExecutionIds : List String
  deriving DecidableEq

/-- `ApprovalRequest`. -/
structure ApprovalRequest where
  executionId : String
  nodeId : String
  message : String
  data : JValue
  timeoutAt : Option ℚ := none
  deriving DecidableEq

/-! ## Durable store (`src/lib/redis.ts`)

The Redis client keys workflows by `workflow:<id>`, executions by `execution:<id>` and
approval requests by `approval:<executionId>`; each namespace is modelled as its own
association list.  TTLs only affect physical expiry and are not modelled. -/

/-- The durable store contents. -/
structure Store where
  workflows : List (String × Workflow) := []
  executions : List (String × ExecutionContext) := []
  approvals : List (String × ApprovalRequest) := []
  deriving DecidableEq

/-- `redisClient.saveExecution`. -/
def saveExecution (st : Store) (ctx : ExecutionContext) : Store :=
  { st with executions := alistSet st.executions ctx.executionId ctx }

/-- `redisClient.getExecution`. -/
def getExecution (st : Store) (executionId : String) : Option ExecutionContext :=
  alistGet st.executions executionId

/-- `redisClient.getWorkflow`. -/
def getWorkflow (st : Store) (workflowId : String) : Option Workflow :=
  alistGet st.workflows workflowId

/-- `redisClient.saveApprovalRequest`. -/
def saveApprovalRequest (st : Store) (approval : ApprovalRequest) : Store :=
  { st with approvals := alistSet st.approvals approval.executionId approval }

/-- `redisClient.getApprovalRequest`. -/
def getApprovalRequest (st : Store) (executionId : String) : Option ApprovalRequest :=
  alistGet st.approvals executionId

/-- `redisClient.deleteApprovalRequest`. -/
def deleteApprovalRequest (st : Store) (executionId : String) : Store :=
  { st with approvals := alistDel st.approvals executionId }

/-- The partial-update record passed as `updates` to
`redisClient.updateExecutionStatus`; only the fields actually supplied at the client's
call sites appear.  A `some` overrides the stored field. -/
structure CtxUpdates where
  currentNodeId : Option (Option String) := none
  stepResults : Option JFields := none
  error : Option String := none
  completedAt : Option ℚ := none
  deriving DecidableEq

/-- `{...execution, ...updates}`. -/
def applyUpdates (ex : ExecutionContext) (u : CtxUpdates) : ExecutionContext :=
  { ex with
    currentNodeId := u.currentNodeId.getD ex.currentNodeId
    stepResults := u.stepResults.getD ex.stepResults
    error := match u.error with | some e => some e | none => ex.error
    completedAt := match u.completedAt with | some t => some t | none => ex.completedAt }

/-- `redisClient.updateExecutionStatus`: reads the stored execution (throwing if it is
missing), spreads the updates over it, overrides `status` and `updatedAt`, saves. -/
def updateExecutionStatus (now : ℚ) (st : Store) (executionId : String)
    (status : ExecutionStatus) (updates : CtxUpdates) : Except String Store :=
  match getExecution st executionId with
  | none => .error ("Execution " ++ executionId ++ " not found")
  | some ex =>
    .ok (saveExecution st { applyUpdates ex updates with status := status, updatedAt := now })

/-! ## Shared executor plumbing -/

/-- `errors.join(', ')`. -/
def joinErrors (errors : List String) : String :=
  String.intercalate ", " errors

/-- The string form of an `ExecutionStatus` (the TS union is a string union). -/
def statusToString : ExecutionStatus → String
  | .running => "running"
  | .paused => "paused"
  | .completed => "completed"
  | .failed => "failed"
  | .cancelled => "cancelled"

/-- The string form of a `NodeStatus`. -/
def nodeStatusToString : NodeStatus → String
  | .pending => "pending"
  | .running => "running"
  | .completed => "completed"
  | .failed => "failed"
  | .skipped => "skipped"

/-- The string form of a `NodeType`. -/
def nodeTypeToString : NodeType → String
  | .trigger => "trigger"
  | .action => "action"
  | .agent => "agent"
  | .humanApproval => "human-approval"
  | .condition => "condition"
  | .loop => "loop"
  | .spawnAgent => "spawn-agent"

/-- An optional string as a JS value (`undefined` when absent). -/
def optStrJ : Option String → JValue
  | some s => .str s
  | none => .undefined

/-- An optional number as a JS value (`undefined` when absent). -/
def optNumJ : Option ℚ → JValue
  | some q => .num q
  | none => .undefined

/-- JS falsiness of an optional string field (`undefined` or `""`). -/
def strFalsy (o : Option String) : Bool :=
  o = none ∨ o = some ""

/-- `o || d` on an optional string field. -/
def strOrD (o : Option String) (d : String) : String :=
  match o with
  | some s => if s = "" then d else s
  | none => d

/-- Delete a field (JS `delete obj[k]`). -/
def JFields.del : JFields → String → JFields
  | .nil, _ => .nil
  | .cons k v tl, key => if k = key then tl.del key else .cons k v (tl.del key)

/-- The result record every executor hands back to the engine (`{success, data,
error?}` after `WorkflowExecutor.executeNode` re-packages it). -/
structure NodeOutcome where
  success : Bool
  data : JValue
  error : Option String := none
  deriving DecidableEq

/-- `{isValid, errors}` of the static `validateConfig` helpers. -/
structure ValidationResult where
  isValid : Bool
  errors : List String
  deriving DecidableEq

/-- The external JavaScript evaluator behind `new Function(...keys, 'return ' + expr)`:
expression text and key/value context → value, or the message of a thrown error.
It is an oracle: the repository does not interpret expressions itself. -/
def JsEval : Type := String → JFields → Except String JValue

/-- External behaviours the engine awaits but does not compute: the JS evaluator,
`JSON.parse`, the HTTP transport of action nodes, and the LLM-backed agent/spawn
executors (the latter two take and return the store because spawn children persist
sub-execution records). -/
structure Runtime where
  jsEval : JsEval
  jsonParse : String → Option JValue
  httpRequest : NodeConfig → ExecutionContext → NodeOutcome
  agentNode : WorkflowNode → ExecutionContext → NodeOutcome
  spawnNode : WorkflowNode → ExecutionContext → Workflow → Store → Store × NodeOutcome

/-! ## Safe evaluation (`condition-executor.ts` / `loop-executor.ts`)

`safeEval` rejects the expression when the blacklist matches, otherwise hands it to the
JS evaluator, wrapping a thrown error. -/

/-- `safeEval(expression, context)` — identical in both executors. -/
def safeEval (jsEval : JsEval) (expression : String) (context : JFields) :
    Except String JValue :=
  if containsUnsafeCode expression then .error "Expression contains unsafe code"
  else
    match jsEval expression context with
    | .ok v => .ok v
    | .error e => .error ("Expression evaluation failed: " ++ e)

/-! ## ConditionExecutor (`condition-executor.ts`) -/

/-- `ConditionResult`. -/
structure ConditionResult where
  success : Bool
  data : JValue
  error : Option String := none
  result : Bool
  evaluatedExpression : String
  deriving DecidableEq

/-- `createSafeContext(context)`: execution ids and status, the variables, the step
results, then the whitelisted utility entries (host objects are opaque `native`
values; `timestamp` is `Date.now()`). -/
def createSafeContext (now : ℚ) (ctx : ExecutionContext) : JFields :=
  let base : JFields :=
    .cons "executionId" (.str ctx.executionId)
      (.cons "workflowId" (.str ctx.workflowId)
        (.cons "status" (.str (statusToString ctx.status)) .nil))
  ((((((((((base.mergeRight ctx.variables).mergeRight ctx.stepResults).set
    "now" (.native "now")).set
    "timestamp" (.num now)).set
    "Math" (.native "Math")).set
    "String" (.native "String")).set
    "Number" (.native "Number")).set
    "Boolean" (.native "Boolean")).set
    "Array" (.native "Array")).set
    "Object" (.native "Object")).set
    "JSON" (.native "JSON")

/-- `evaluateCondition(expression, context)`: build the safe context, interpolate
variables, `safeEval`, coerce with `Boolean(...)`; any thrown error is caught and
degrades the result to `false`. -/
def evaluateCondition (jsEval : JsEval) (now : ℚ) (expression : String)
    (ctx : ExecutionContext) : Bool :=
  let safeContext := createSafeContext now ctx
  let processedExpression := replaceVariables expression safeContext
  match safeEval jsEval processedExpression safeContext with
  | .ok v => v.truthy
  | .error _ => false

/-- `sanitizeContext(context)`: a shallow copy of the execution context with the
sensitive variable names removed, serialized into the step data. -/
def sanitizeContext (ctx : ExecutionContext) : JValue :=
  let sv := (((ctx.variables.del "password").del "token").del "secret").del "key"
  .obj
    (.cons "workflowId" (.str ctx.workflowId)
      (.cons "executionId" (.str ctx.executionId)
        (.cons "status" (.str (statusToString ctx.status))
          (.cons "currentNodeId" (optStrJ ctx.currentNodeId)
            (.cons "stepResults" (.obj ctx.stepResults)
              (.cons "variables" (.obj sv) .nil))))))

/-- `ConditionExecutor.validateConfig(config)`: requires a non-empty expression and
probes the syntax by running the expression (with `{{name}}` replaced by `true`)
against `{test: true}` through the evaluator. -/
def conditionValidateConfig (jsEval : JsEval) (config : NodeConfig) : ValidationResult :=
  let errs1 := if strFalsy config.expression then ["Expression is required"] else []
  let errs2 :=
    match config.expression with
    | some e => if e ≠ "" ∧ strTrim e = "" then ["Expression cannot be empty"] else []
    | none => []
  let errs3 :=
    match config.expression with
    | some e =>
      if e ≠ "" then
        match jsEval (replaceCurlyTrue e)
            (.cons "test" (.obj (.cons "test" (.bool true) .nil)) .nil) with
        | .ok _ => []
        | .error m => ["Invalid expression syntax: " ++ m]
      else []
    | none => []
  let errs := errs1 ++ errs2 ++ errs3
  { isValid := errs.isEmpty, errors := errs }

/-- `ConditionExecutor.execute(node, context)`. -/
def conditionExecute (jsEval : JsEval) (now : ℚ) (node : WorkflowNode)
    (ctx : ExecutionContext) : ConditionResult :=
  let config := node.config
  let validation := conditionValidateConfig jsEval config
  if ¬validation.isValid then
    { success := false, data := .obj .nil,
      error := some ("Invalid condition configuration: " ++ joinErrors validation.errors),
      result := false, evaluatedExpression := "" }
  else
    let expr := config.expression.getD ""
    let result := evaluateCondition jsEval now expr ctx
    { success := true
      data := .obj
        (.cons "condition" (.str expr)
          (.cons "result" (.bool result)
            (.cons "evaluatedAt" (.num now)
              (.cons "context" (sanitizeContext ctx) .nil))))
      result := result
      evaluatedExpression := expr }

/-! ## LoopExecutor (`loop-executor.ts`) -/

/-- `LoopResult`. -/
structure LoopResult where
  success : Bool
  data : JValue
  error : Option String := none
  shouldContinue : Bool
  iterationCount : Nat
  exitReason : Option String := none
  deriving DecidableEq

/-- `LoopExecutor.validateConfig(config)`: `maxIterations` between 1 and 1000, a
non-empty exit condition if provided, and an evaluator probe of the exit condition
(with `{{name}}` replaced by `true`) against `(iteration, test) = (1, true)`. -/
def loopValidateConfig (jsEval : JsEval) (config : NodeConfig) : ValidationResult :=
  let errs1 :=
    match config.maxIterations with
    | none => ["Max iterations must be at least 1"]
    | some m => if m = 0 ∨ m < 1 then ["Max iterations must be at least 1"] else []
  let errs2 :=
    match config.maxIterations with
    | some m => if m > 1000 then ["Max iterations cannot exceed 1000"] else []
    | none => []
  let errs3 :=
    match config.exitCondition with
    | some e => if e ≠ "" ∧ strTrim e = "" then ["Exit condition cannot be empty if provided"] else []
    | none => []
  let errs4 :=
    match config.exitCondition with
    | some e =>
      if e ≠ "" then
        match jsEval (replaceCurlyTrue e)
            (.cons "iteration" (.num 1) (.cons "test" (.bool true) .nil)) with
        | .ok _ => []
        | .error m => ["Invalid exit condition syntax: " ++ m]
      else []
    | none => []
  let errs := errs1 ++ errs2 ++ errs3 ++ errs4
  { isValid := errs.isEmpty, errors := errs }

/-- `evaluateExitCondition(condition, context, iterationCount)`: variables and step
results plus the three iteration counters, interpolate, `safeEval`, `Boolean(...)`;
a thrown error is caught and degrades the outcome to `false`. -/
def evaluateExitCondition (jsEval : JsEval) (condition : String)
    (ctx : ExecutionContext) (iterationCount : Nat) : Bool :=
  let safeContext :=
    (((ctx.variables.mergeRight ctx.stepResults).set
      "iteration" (.num iterationCount)).set
      "loopCount" (.num iterationCount)).set
      "currentIteration" (.num iterationCount)
  let processedCondition := replaceVariables condition safeContext
  match safeEval jsEval processedCondition safeContext with
  | .ok v => v.truthy
  | .error _ => false

/-- `LoopExecutor.execute(node, context)`.  `currentIteration` reads the visit count
the engine has already incremented for this pop. -/
def loopExecute (jsEval : JsEval) (node : WorkflowNode) (ctx : ExecutionContext) :
    LoopResult :=
  let config := node.config
  let validation := loopValidateConfig jsEval config
  if ¬validation.isValid then
    { success := false, data := .obj .nil,
      error := some ("Invalid loop configuration: " ++ joinErrors validation.errors),
      shouldContinue := false, iterationCount := 0 }
  else
    let currentIteration := (alistGet ctx.nodeVisitCounts node.id).getD 0
    let newIterationCount := currentIteration + 1
    let maxedOut : Bool :=
      match config.maxIterations with
      | some m => decide ((newIterationCount : ℚ) > m)
      | none => false
    if maxedOut then
      { success := true
        data := .obj
          (.cons "iterationCount" (.num newIterationCount)
            (.cons "maxIterations" (optNumJ config.maxIterations)
              (.cons "exitReason" (.str "max_iterations_reached") .nil)))
        shouldContinue := false
        iterationCount := newIterationCount
        exitReason := some "Maximum iterations reached" }
    else
      match config.exitCondition with
      | some cond =>
        if evaluateExitCondition jsEval cond ctx newIterationCount then
          { success := true
            data := .obj
              (.cons "iterationCount" (.num newIterationCount)
                (.cons "exitReason" (.str "condition_met")
                  (.cons "exitCondition" (.str cond) .nil)))
            shouldContinue := false
            iterationCount := newIterationCount
            exitReason := some "Exit condition met" }
        else loopContinueResult config newIterationCount ctx
      | none => loopContinueResult config newIterationCount ctx
where
  /-- The `shouldContinue: true` result (the `updatedVariables` copy is local to the
  executor and reaches the engine only through `loopVariableValue`). -/
  loopContinueResult (config : NodeConfig) (newIterationCount : Nat)
      (_ctx : ExecutionContext) : LoopResult :=
    { success := true
      data := .obj
        (.cons "iterationCount" (.num newIterationCount)
          (.cons "maxIterations" (optNumJ config.maxIterations)
            (.cons "loopVariable" (optStrJ config.loopVariable)
              (.cons "loopVariableValue"
                (match config.loopVariable with
                 | some _ => .num newIterationCount
                 | none => .undefined)
                (.cons "shouldContinue" (.bool true) .nil)))))
      shouldContinue := true
      iterationCount := newIterationCount }

/-! ## ApprovalExecutor (`approval-executor.ts`) -/

/-- `ApprovalResult`. -/
structure ApprovalResult where
  success : Bool
  data : JValue
  error : Option String := none
  requiresApproval : Bool
  approvalId : Option String := none
  deriving DecidableEq

/-- The `/^[^\s@]+@[^\s@]+\.[^\s@]+$/` email probe: exactly one `@`, no whitespace,
something before the `@`, and a `.` with characters on both sides after it. -/
def isValidEmail (email : String) : Bool :=
  let cs := email.data
  (cs.all (fun c => ¬ isWsChar c)) &&
  (cs.count '@' = 1) &&
  (match cs.splitOn '@' with
   | [left, right] =>
     (left ≠ []) &&
     ((List.range right.length).any (fun i =>
       0 < i ∧ i + 1 < right.length ∧ right.get? i = some '.'))
   | _ => false)

/-- `ApprovalExecutor.validateConfig(config)`. -/
def approvalValidateConfig (config : NodeConfig) : ValidationResult :=
  let errs1 := if strFalsy config.approvalMessage then ["Approval message is required"] else []
  let errs2 :=
    match config.timeoutMinutes with
    | some m => if m ≠ 0 ∧ (m < 1 ∨ m > 10080)
        then ["Timeout must be between 1 minute and 1 week (10080 minutes)"] else []
    | none => []
  let errs3 :=
    match config.approverEmail with
    | some e => if e ≠ "" ∧ ¬ isValidEmail e then ["Invalid approver email format"] else []
    | none => []
  let errs := errs1 ++ errs2 ++ errs3
  { isValid := errs.isEmpty, errors := errs }

/-- An `ApprovalRequest` as the JS object embedded into the step data. -/
def approvalRequestToJ (req : ApprovalRequest) : JValue :=
  .obj
    (.cons "executionId" (.str req.executionId)
      (.cons "nodeId" (.str req.nodeId)
        (.cons "message" (.str req.message)
          (.cons "data" req.data
            (.cons "timeoutAt" (optNumJ req.timeoutAt) .nil)))))

/-- `ApprovalExecutor.execute(node, context)`: validate, create one `ApprovalRequest`
keyed by the execution id, save it, then set the stored execution to `paused` with a
`pending_approval` step entry (failing — after the request was already saved — when no
stored execution exists). -/
def approvalExecute (now : ℚ) (node : WorkflowNode) (ctx : ExecutionContext)
    (st : Store) : Store × ApprovalResult :=
  let config := node.config
  let validation := approvalValidateConfig config
  if ¬validation.isValid then
    (st, { success := false, data := .obj .nil,
           error := some ("Invalid approval configuration: " ++ joinErrors validation.errors),
           requiresApproval := false })
  else
    let msg := config.approvalMessage.getD ""
    let timeoutAt : Option ℚ :=
      match config.timeoutMinutes with
      | some m => if m ≠ 0 then some (now + m * 60 * 1000) else none
      | none => none
    let req : ApprovalRequest :=
      { executionId := ctx.executionId
        nodeId := node.id
        message := msg
        data := .obj
          ((ctx.variables.set "stepResults" (.obj ctx.stepResults)).set
            "nodeLabel" (.str node.label))
        timeoutAt := timeoutAt }
    let st1 := saveApprovalRequest st req
    let pendingEntry : JValue :=
      .obj
        (.cons "status" (.str "pending_approval")
          (.cons "message" (.str msg)
            (.cons "requestedAt" (.num now)
              (.cons "timeoutAt" (optNumJ timeoutAt) .nil))))
    match updateExecutionStatus now st1 ctx.executionId .paused
        { currentNodeId := some (some node.id)
          stepResults := some (ctx.stepResults.set node.id pendingEntry) } with
    | .error e =>
      (st1, { success := false, data := .obj .nil, error := some e,
              requiresApproval := false })
    | .ok st2 =>
      (st2,
       { success := true
         data := .obj
           (.cons "approvalRequest" (approvalRequestToJ req)
             (.cons "message" (.str msg)
               (.cons "timeoutAt" (optNumJ timeoutAt) .nil)))
         requiresApproval := true
         approvalId := some ctx.executionId })

/-- `ApprovalExecutor.approve(executionId, approvedBy, reason?, additionalData?)`:
requires the request to exist and not to have expired (an expired one is deleted and
reported as an error), then sets the stored execution to `running` — note the source
replaces `stepResults` wholesale with the single approval entry — and deletes the
request. -/
def approvalApprove (now : ℚ) (st : Store) (executionId : String)
    (approvedBy : String) (reason : Option String) (additionalData : Option JValue) :
    Store × (Bool × Option String) :=
  match getApprovalRequest st executionId with
  | none => (st, (false, some "Approval request not found"))
  | some approval =>
    if (match approval.timeoutAt with
        | some t => decide (t < now)
        | none => false) then
      (deleteApprovalRequest st executionId, (false, some "Approval request has expired"))
    else
      let entry : JValue :=
        .obj
          (.cons "status" (.str "approved")
            (.cons "approvedBy" (.str approvedBy)
              (.cons "reason" (optStrJ reason)
                (.cons "additionalData" (additionalData.getD .undefined)
                  (.cons "approvedAt" (.num now) .nil)))))
      match updateExecutionStatus now st executionId .running
          { stepResults := some (.cons approval.nodeId entry .nil) } with
      | .error e => (st, (false, some e))
      | .ok st2 => (deleteApprovalRequest st2 executionId, (true, none))

/-- `ApprovalExecutor.reject(executionId, rejectedBy, reason?)`: requires the request
to exist, sets the stored execution to `failed` with
`error = "Approval rejected: " + (reason || "No reason provided")` (and, as in the
source, replaces `stepResults` wholesale with the single rejection entry), then deletes
the request. -/
def approvalReject (now : ℚ) (st : Store) (executionId : String)
    (rejectedBy : String) (reason : Option String) :
    Store × (Bool × Option String) :=
  match getApprovalRequest st executionId with
  | none => (st, (false, some "Approval request not found"))
  | some approval =>
    let entry : JValue :=
      .obj
        (.cons "status" (.str "rejected")
          (.cons "rejectedBy" (.str rejectedBy)
            (.cons "reason" (optStrJ reason)
              (.cons "rejectedAt" (.num now) .nil))))
    match updateExecutionStatus now st executionId .failed
        { stepResults := some (.cons approval.nodeId entry .nil)
          error := some ("Approval rejected: " ++ strOrD reason "No reason provided") } with
    | .error e => (st, (false, some e))
    | .ok st2 => (deleteApprovalRequest st2 executionId, (true, none))

/-! ## TriggerExecutor (`trigger-executor.ts`) -/

/-- `TriggerExecutor.execute(node, context, triggerData)`: dispatch on
`config.triggerType`; each handler succeeds with the trigger data plus bookkeeping
fields; an unsupported type is thrown and caught into a failure result. -/
def triggerExecute (now : ℚ) (node : WorkflowNode) (triggerData : JFields) :
    NodeOutcome :=
  let config := node.config
  match config.triggerType with
  | some "webhook" =>
    { success := true
      data := .obj
        (((triggerData.set "triggerType" (.str "webhook")).set
          "timestamp" (.num now)).set
          "webhookPath" (optStrJ config.webhookPath)) }
  | some "manual" =>
    { success := true
      data := .obj
        (((triggerData.set "triggerType" (.str "manual")).set
          "timestamp" (.num now)).set
          "initiatedBy" (.str "user")) }
  | some "schedule" =>
    { success := true
      data := .obj
        (((triggerData.set "triggerType" (.str "schedule")).set
          "timestamp" (.num now)).set
          "scheduleExpression" (optStrJ config.scheduleExpression)) }
  | other =>
    { success := false, data := .obj .nil,
      error := some ("Unsupported trigger type: " ++ other.getD "undefined") }

/-! ## ActionExecutor (`action-executor.ts`) -/

/-- `ActionExecutor.execute(node, context)`: dispatch on `config.actionType`.
The HTTP transport is external (`rt.httpRequest`); `data-transform` substitutes
`{{name}}` patterns into the script and tries `JSON.parse` (`rt.jsonParse`, `none`
meaning a parse error); `notification` and `custom` are pure. -/
def actionExecute (rt : Runtime) (now : ℚ) (node : WorkflowNode)
    (ctx : ExecutionContext) : NodeOutcome :=
  let config := node.config
  match config.actionType with
  | some "http-request" =>
    if strFalsy config.httpUrl then
      { success := false, data := .obj .nil,
        error := some "HTTP URL is required for HTTP request actions" }
    else rt.httpRequest config ctx
  | some "data-transform" =>
    if strFalsy config.transformScript then
      { success := false, data := .obj .nil,
        error := some "Transform script is required for data transform actions" }
    else
      let script := config.transformScript.getD ""
      let safeContext :=
        (ctx.variables.set "input" (.obj ctx.variables)).set
          "data" (.obj ctx.stepResults)
      let result : String :=
        ⟨replaceCurlyGo (substFromCtx safeContext) script.data.length script.data⟩
      let parsedResult :=
        match rt.jsonParse result with
        | some v => v
        | none => .str result
      { success := true
        data := .obj
          (.cons "transformed" parsedResult
            (.cons "original" (.obj ctx.variables) .nil)) }
  | some "notification" =>
    { success := true
      data := .obj
        (.cons "notification"
          (.obj
            (.cons "type" (.str (strOrD config.notificationType "webhook"))
              (.cons "message"
                (jsOr (JValue.obj ctx.variables |>.get "message") (.str "Workflow notification"))
                (.cons "timestamp" (.num now)
                  (.cons "context" (.obj ctx.variables) .nil)))))
          (.cons "sent" (.bool true) .nil)) }
  | some "custom" =>
    if strFalsy config.customScript then
      { success := false, data := .obj .nil,
        error := some "Custom script is required for custom actions" }
    else
      { success := true
        data := .obj
          (.cons "executed" (.bool true)
            (.cons "script" (.str (config.customScript.getD ""))
              (.cons "context" (.obj ctx.variables)
                (.cons "timestamp" (.num now) .nil)))) }
  | other =>
    { success := false, data := .obj .nil,
      error := some ("Unsupported action type: " ++ other.getD "undefined") }

/-! ## SpawnExecutor aggregation (`spawn-executor.ts`)

The fan-out itself performs LLM calls and is external (`Runtime.spawnNode`); the
aggregation logic is the repository's own code and is modelled here. -/

/-- One spawn child result as consumed by `aggregateResults` (`data` is `undefined`
when the child supplied none). -/
structure SpawnResultItem where
  success : Bool
  executionId : Option String := none
  data : JValue := .undefined
  error : Option String := none
  deriving DecidableEq

/-- Record one vote in the `resultCounts` map: keys are `JSON.stringify(result)`, the
stored value is the first result inserted under that key (`JSON.parse(key)` in the
source round-trips to it), insertion order is preserved as in a JS `Map`. -/
def addVote (acc : List (String × JValue × Nat)) (r : JValue) :
    List (String × JValue × Nat) :=
  let key := jsonStringify r
  if acc.any (fun e => e.1 = key) then
    acc.map (fun e => if e.1 = key then (e.1, e.2.1, e.2.2 + 1) else e)
  else
    acc ++ [(key, r, 1)]

/-- The populated `resultCounts` map. -/
def majorityCounts (results : List JValue) : List (String × JValue × Nat) :=
  results.foldl addVote []

/-- The `for (const [key, count] of resultCounts)` scan: starting from
`(null, 0)`, replace the champion whenever a strictly greater count appears. -/
def pickMajority (counts : List (String × JValue × Nat)) : JValue × Nat :=
  counts.foldl
    (fun best e => if e.2.2 > best.2 then (e.2.1, e.2.2) else best)
    (.null, 0)

/-- `SpawnExecutor.aggregateByMajority(results)`: deep-equality voting through
`JSON.stringify` keys; returns `{result, confidence: maxCount / results.length,
totalVotes: results.length}`. -/
def aggregateByMajority (results : List JValue) : JValue :=
  let picked := pickMajority (majorityCounts results)
  .obj
    (.cons "result" picked.1
      (.cons "confidence" (.num ((picked.2 : ℚ) / (results.length : ℚ)))
        (.cons "totalVotes" (.num results.length) .nil)))

/-- `SpawnExecutor.executeCustomAggregation(results, customAggregation)`: builds the
`{results, count, first, last, Math, JSON, Array, Object}` context, substitutes
`{{name}}` patterns, and evaluates the expression directly through `new Function(...)`
— there is no `containsUnsafeCode` screening on this path; an evaluation error falls
back to the plain result list. -/
def executeCustomAggregation (jsEval : JsEval) (results : List JValue)
    (customAggregation : String) : JValue :=
  let safeContext : JFields :=
    .cons "results" (.arr (JArray.ofList results))
      (.cons "count" (.num results.length)
        (.cons "first" (results.headD .undefined)
          (.cons "last" (results.getLastD .undefined)
            (.cons "Math" (.native "Math")
              (.cons "JSON" (.native "JSON")
                (.cons "Array" (.native "Array")
                  (.cons "Object" (.native "Object") .nil)))))))
  let processed : String :=
    ⟨replaceCurlyGo (substFromCtx safeContext)
      customAggregation.data.length customAggregation.data⟩
  match jsEval processed safeContext with
  | .ok v => v
  | .error _ => .arr (JArray.ofList results)

/-- `SpawnExecutor.aggregateResults(spawnResults, strategy, customAggregation)`:
extract `result.data?.result || result.data` per child, then dispatch on the
strategy. -/
def aggregateResults (jsEval : JsEval) (spawnResults : List SpawnResultItem)
    (strategy : Option String) (customAggregation : Option String) : JValue :=
  let results := spawnResults.map (fun r => jsOr (r.data.get "result") r.data)
  match strategy with
  | some "first" => results.headD .undefined
  | some "all" => .arr (JArray.ofList results)
  | some "majority" => aggregateByMajority results
  | some "custom" =>
    if strFalsy customAggregation then .arr (JArray.ofList results)
    else executeCustomAggregation jsEval results (customAggregation.getD "")
  | _ => .arr (JArray.ofList results)

/-- `SpawnExecutor.validateConfig(config)`. -/
def spawnValidateConfig (config : NodeConfig) : ValidationResult :=
  let errs1 := if strFalsy config.agentPrompt then ["Agent prompt is required"] else []
  let errs2 :=
    match config.maxAgents with
    | none => ["Max agents must be at least 1"]
    | some m => if m = 0 ∨ m < 1 then ["Max agents must be at least 1"] else []
  let errs3 :=
    match config.maxAgents with
    | some m => if m > 10 then ["Max agents cannot exceed 10"] else []
    | none => []
  let errs4 := if strFalsy config.aggregationStrategy then ["Aggregation strategy is required"] else []
  let errs5 :=
    if config.aggregationStrategy = some "custom" ∧ strFalsy config.customAggregation then
      ["Custom aggregation is required when strategy is custom"]
    else []
  let errs := errs1 ++ errs2 ++ errs3 ++ errs4 ++ errs5
  { isValid := errs.isEmpty, errors := errs }

/-! ## RetryHandler (`retry-handler.ts`) -/

/-- The resolved `RetryConfig`. -/
structure RetryConfig where
  maxRetries : Nat := 3
  retryDelayMs : ℚ := 1000
  backoffMultiplier : ℚ := 2
  retryableErrors : List String := ["timeout", "network", "rate_limit", "temporary", "unavailable"]

/-- The constructor argument `Partial<RetryConfig>`. -/
structure RetryOptions where
  maxRetries : Option Nat := none
  retryDelayMs : Option ℚ := none
  backoffMultiplier : Option ℚ := none
  retryableErrors : Option (List String) := none

/-- The `RetryHandler` constructor: `config.x || default` on each field (so an explicit
`0` also falls back, as `||` does; an explicit empty array is truthy and kept). -/
def mkRetryConfig (o : RetryOptions) : RetryConfig :=
  { maxRetries := match o.maxRetries with | some n => if n = 0 then 3 else n | none => 3
    retryDelayMs := match o.retryDelayMs with | some d => if d = 0 then 1000 else d | none => 1000
    backoffMultiplier := match o.backoffMultiplier with | some b => if b = 0 then 2 else b | none => 2
    retryableErrors := (o.retryableErrors).getD
      ["timeout", "network", "rate_limit", "temporary", "unavailable"] }

/-- `isRetryableError(error)`: the lower-cased message contains one of the lower-cased
retryable markers. -/
def isRetryableError (cfg : RetryConfig) (msg : String) : Bool :=
  cfg.retryableErrors.any (fun re => strIncludes (strLower msg) (strLower re))

/-- `RetryResult`; `sleeps` records the arguments of the `await this.delay(...)` calls
in order — the observable sleep schedule of the run. -/
structure RetryResult where
  success : Bool
  value : Option JValue := none
  error : Option String := none
  attempts : Nat
  totalDelayMs : ℚ
  sleeps : List ℚ
  deriving DecidableEq

/-- The `for (let attempt = 1; attempt <= maxRetries; attempt++)` body of
`executeWithRetry`; `op n` is the outcome of the n-th `await operation()` (the thrown
error reduced to its message).  `fuel` is the number of remaining iterations, so the
recursion is structural. -/
def retryLoop (cfg : RetryConfig) (op : Nat → Except String JValue) :
    Nat → Nat → Option String → ℚ → List ℚ → RetryResult
  | 0, _, lastErr, total, sleeps =>
    { success := false, error := some (strOrD lastErr "Max retries exceeded"),
      attempts := cfg.maxRetries, totalDelayMs := total, sleeps := sleeps.reverse }
  | fuel + 1, attempt, _, total, sleeps =>
    match op attempt with
    | .ok v =>
      { success := true, value := some v, attempts := attempt,
        totalDelayMs := total, sleeps := sleeps.reverse }
    | .error e =>
      if ¬ isRetryableError cfg e then
        { success := false, error := some e, attempts := attempt,
          totalDelayMs := total, sleeps := sleeps.reverse }
      else if attempt = cfg.maxRetries then
        { success := false, error := some (strOrD (some e) "Max retries exceeded"),
          attempts := cfg.maxRetries, totalDelayMs := total, sleeps := sleeps.reverse }
      else
        let delay := cfg.retryDelayMs * cfg.backoffMultiplier ^ (attempt - 1)
        retryLoop cfg op fuel (attempt + 1) (some e) (total + delay) (delay :: sleeps)

/-- `RetryHandler.executeWithRetry(operation, context, node)`. -/
def executeWithRetry (cfg : RetryConfig) (op : Nat → Except String JValue) :
    RetryResult :=
  retryLoop cfg op cfg.maxRetries 1 none 0 []

/-! ## NodeExecutorFactory (`src/lib/nodes/index.ts`) -/

/-- `NodeExecutorFactory.executeNode(node, context, workflow, triggerData)`: dispatch on
`node.type` to the corresponding executor.  Every `NodeType` has a registered executor;
the engine always passes the workflow, so the spawn guard cannot fire.  Only the
approval and spawn executors touch the store. -/
def executeNodeF (rt : Runtime) (now : ℚ) (node : WorkflowNode)
    (ctx : ExecutionContext) (wf : Workflow) (triggerData : JFields) (st : Store) :
    Store × NodeOutcome :=
  match node.type with
  | .trigger => (st, triggerExecute now node triggerData)
  | .action => (st, actionExecute rt now node ctx)
  | .agent => (st, rt.agentNode node ctx)
  | .humanApproval =>
    let r := approvalExecute now node ctx st
    (r.1, { success := r.2.success, data := r.2.data, error := r.2.error })
  | .condition =>
    let r := conditionExecute rt.jsEval now node ctx
    (st, { success := r.success, data := r.data, error := r.error })
  | .loop =>
    let r := loopExecute rt.jsEval node ctx
    (st, { success := r.success, data := r.data, error := r.error })
  | .spawnAgent => rt.spawnNode node ctx wf st

/-! ## WorkflowExecutor (`executor.ts`) -/

/-- `ExecutionOptions` (the constructor argument). -/
structure ExecutionOptions where
  maxIterations : Option Nat := none
  timeoutMs : Option ℚ := none
  retryAttempts : Option Nat := none
  retryDelayMs : Option ℚ := none

/-- The options after the constructor's `x || default` resolution (`0` falls back to
the default, as `||` does). -/
structure ResolvedOptions where
  maxIterations : Nat
  timeoutMs : ℚ
  retryAttempts : Nat
  retryDelayMs : ℚ
  deriving DecidableEq

/-- The `WorkflowExecutor` constructor. -/
def resolveOptions (o : ExecutionOptions) : ResolvedOptions :=
  { maxIterations := match o.maxIterations with | some n => if n = 0 then 1000 else n | none => 1000
    timeoutMs := match o.timeoutMs with | some t => if t = 0 then 300000 else t | none => 300000
    retryAttempts := match o.retryAttempts with | some n => if n = 0 then 3 else n | none => 3
    retryDelayMs := match o.retryDelayMs with | some d => if d = 0 then 1000 else d | none => 1000 }

/-- `ExecutionResult` (`duration` is wall-clock time; under the fixed model clock it is
zero). -/
structure ExecutionResult where
  success : Bool
  executionId : String
  status : ExecutionStatus
  error : Option String := none
  duration : ℚ := 0
  stepsExecuted : Nat
  deriving DecidableEq

/-- Number of keys, for `Object.keys(stepResults).length` (step results are keyed by
node id and only ever written through `set`, so keys are distinct). -/
def JFields.length : JFields → Nat
  | .nil => 0
  | .cons _ _ tl => tl.length + 1

/-- `getNextNodes(workflow, currentNode, context)`: the targets of all outgoing edges,
resolved against the node list (dangling targets are dropped); the edge guard is not
consulted. -/
def getNextNodes (wf : Workflow) (currentNode : WorkflowNode) : List WorkflowNode :=
  (wf.edges.filter (fun e => e.source = currentNode.id)).filterMap
    (fun e => wf.nodes.find? (fun n => n.id = e.target))

/-- `getConditionalNextNodes(workflow, conditionNode, conditionResult)`: on the true
branch, edges with a falsy guard or the literal `'true'`/`'True'`; on the false branch,
edges with the literal `'false'`/`'False'`. -/
def getConditionalNextNodes (wf : Workflow) (conditionNode : WorkflowNode)
    (conditionResult : Bool) : List WorkflowNode :=
  let outgoingEdges := wf.edges.filter (fun e => e.source = conditionNode.id)
  if conditionResult then
    (outgoingEdges.filter (fun e =>
        strFalsy e.condition || decide (e.condition = some "true") ||
          decide (e.condition = some "True"))).filterMap
      (fun e => wf.nodes.find? (fun n => n.id = e.target))
  else
    (outgoingEdges.filter (fun e =>
        decide (e.condition = some "false") || decide (e.condition = some "False"))).filterMap
      (fun e => wf.nodes.find? (fun n => n.id = e.target))

/-- `findStartNode(workflow)`: the first trigger node. -/
def findStartNode (wf : Workflow) : Option WorkflowNode :=
  wf.nodes.find? (fun n => n.type = .trigger)

/-- The in-flight state of the `while` loop in `executeFromNode`: the store, the live
`context` object, the `visited` set and the work stack. -/
structure EngineState where
  store : Store
  ctx : ExecutionContext
  visited : List String
  stack : List WorkflowNode

/-- What one iteration of the `while` loop does: continue with a new state, `break`
out, or throw (the iteration-limit error), remembering the popped node for the catch
handler. -/
inductive IterationStep where
  | next (s : EngineState)
  | exitLoop (store : Store) (ctx : ExecutionContext)
  | thrown (store : Store) (ctx : ExecutionContext) (nodeId : String) (msg : String)

/-- The context mutations at the top of each loop iteration: bump the popped node's
visit count, point `currentNodeId` at it and mark it running (the checkpoint that
follows is `saveExecution`). -/
def markRunning (ctx : ExecutionContext) (nodeId : String) : ExecutionContext :=
  let priorCount := (alistGet ctx.nodeVisitCounts nodeId).getD 0
  { ctx with
    nodeVisitCounts := alistSet ctx.nodeVisitCounts nodeId (priorCount + 1)
    currentNodeId := some nodeId
    nodeStatuses := alistSet ctx.nodeStatuses nodeId .running }

/-- One iteration of the `while` loop of `executeFromNode`, on a non-empty stack:
pop; throw `Maximum iterations (...) exceeded` if the node was visited and its count
reached the engine option; otherwise mark visited, bump the visit count, set the node
running and checkpoint; execute the node; on failure set FAILED and break; on success
record the step result, then branch on the node kind (approval pauses and breaks, a
loop with truthy `shouldContinue` pushes itself back, a condition pushes its
guard-matched targets, anything else pushes all outgoing targets) and checkpoint. -/
def stepIter (rt : Runtime) (now : ℚ) (opts : ResolvedOptions) (wf : Workflow)
    (triggerData : JFields) (s : EngineState) : IterationStep :=
  match s.stack with
  | [] => .exitLoop s.store s.ctx
  | currentNode :: rest =>
    let priorCount := (alistGet s.ctx.nodeVisitCounts currentNode.id).getD 0
    if s.visited.contains currentNode.id ∧ priorCount ≥ opts.maxIterations then
      .thrown s.store s.ctx currentNode.id
        ("Maximum iterations (" ++ toString opts.maxIterations ++ ") exceeded for node "
          ++ currentNode.id)
    else
      let visited' := currentNode.id :: s.visited
      let ctx1 := markRunning s.ctx currentNode.id
      let st1 := saveExecution s.store ctx1
      let stepOut := executeNodeF rt now currentNode ctx1 wf triggerData st1
      let st2 := stepOut.1
      let nodeResult := stepOut.2
      if ¬ nodeResult.success then
        .exitLoop st2
          { ctx1 with
            status := .failed
            error := nodeResult.error
            nodeStatuses := alistSet ctx1.nodeStatuses currentNode.id .failed }
      else
        let ctx2 :=
          { ctx1 with
            stepResults := ctx1.stepResults.set currentNode.id nodeResult.data
            nodeStatuses := alistSet ctx1.nodeStatuses currentNode.id .completed }
        if currentNode.type = .humanApproval then
          .exitLoop st2 { ctx2 with status := .paused }
        else if currentNode.type = .loop ∧ (nodeResult.data.get "shouldContinue").truthy then
          .next { store := st2, ctx := ctx2, visited := visited', stack := currentNode :: rest }
        else
          let nextNodes := getNextNodes wf currentNode
          let newStack :=
            if currentNode.type = .condition then
              getConditionalNextNodes wf currentNode
                (nodeResult.data.get "result").truthy ++ rest
            else
              nextNodes ++ rest
          let ctx3 := { ctx2 with updatedAt := now }
          .next { store := saveExecution st2 ctx3, ctx := ctx3, visited := visited', stack := newStack }

/-- The code after the `while` loop: if the loop drained the stack while still
RUNNING, mark COMPLETED and checkpoint. -/
def finishTraversal (now : ℚ) (st : Store) (ctx : ExecutionContext)
    (stackEmpty : Bool) : Store × ExecutionContext :=
  if ctx.status = .running ∧ stackEmpty then
    let ctx' := { ctx with status := .completed, completedAt := some now, updatedAt := now }
    (saveExecution st ctx', ctx')
  else (st, ctx)

/-- The `catch` handler of `executeFromNode`: FAILED status, the thrown message as the
error, the popped node marked failed, checkpoint. -/
def catchTraversal (st : Store) (ctx : ExecutionContext) (nodeId : String)
    (msg : String) : Store × ExecutionContext :=
  let ctx' :=
    { ctx with
      status := .failed
      error := some msg
      nodeStatuses := alistSet ctx.nodeStatuses nodeId .failed }
  (saveExecution st ctx', ctx')

/-- The `while` loop, driven by explicit fuel (one unit per iteration); `none` means
the fuel ran out, which the termination theorem shows cannot happen for the engine's
own fuel budget. -/
def runLoop (rt : Runtime) (now : ℚ) (opts : ResolvedOptions) (wf : Workflow)
    (triggerData : JFields) : Nat → EngineState → Option (Store × ExecutionContext)
  | 0, _ => none
  | fuel + 1, s =>
    if s.stack.isEmpty || decide (s.ctx.status ≠ .running) then
      some (finishTraversal now s.store s.ctx s.stack.isEmpty)
    else
      match stepIter rt now opts wf triggerData s with
      | .next s' => runLoop rt now opts wf triggerData fuel s'
      | .exitLoop st ctx => some (finishTraversal now st ctx false)
      | .thrown st ctx nodeId msg => some (catchTraversal st ctx nodeId msg)

/-- What `executeFromNode` returns to its callers. -/
structure TraversalResult where
  success : Bool
  status : ExecutionStatus
  error : Option String := none
  stepResults : JFields
  deriving DecidableEq

/-- Enough fuel for any traversal: every non-final iteration bumps one visit counter of
one of the (distinct) node ids, each bounded by `max 1 maxIterations`. -/
def engineFuel (wf : Workflow) (opts : ResolvedOptions) : Nat :=
  (wf.nodes.map (fun n => n.id)).dedup.length * (max 1 opts.maxIterations + 1) + 1

/-- `executeFromNode(workflow, context, startNode, triggerData)`: seed the stack with
the start node and run the loop. -/
def executeFromNode (rt : Runtime) (now : ℚ) (opts : ResolvedOptions) (wf : Workflow)
    (ctx : ExecutionContext) (startNode : WorkflowNode) (triggerData : JFields)
    (st : Store) (fuel : Nat) : Option (Store × TraversalResult) :=
  (runLoop rt now opts wf triggerData fuel
    { store := st, ctx := ctx, visited := [], stack := [startNode] }).map
    (fun r =>
      (r.1,
       { success := decide (r.2.status ≠ .failed)
         status := r.2.status
         error := r.2.error
         stepResults := r.2.stepResults }))

/-- The `Set.add` idiom used by `validateWorkflow` (JS `Set` keeps insertion order). -/
def insertOnce (acc : List String) (x : String) : List String :=
  if acc.contains x then acc else acc ++ [x]

/-- The `connectedNodeIds` set: every edge's source and target, in insertion order. -/
def connectedNodeIds (wf : Workflow) : List String :=
  wf.edges.foldl (fun acc e => insertOnce (insertOnce acc e.source) e.target) []

/-- The `nodeIds` set: node ids in first-occurrence order. -/
def workflowNodeIds (wf : Workflow) : List String :=
  wf.nodes.foldl (fun acc n => insertOnce acc n.id) []

/-- `validateWorkflow(workflow)`: at least one trigger node; every node id that is
neither an edge endpoint nor (first-occurrence) a trigger node is reported as not
connected.  `detectCycles` feeds only a console warning and does not contribute
errors. -/
def validateWorkflow (wf : Workflow) : ValidationResult :=
  let triggerErrs :=
    if (wf.nodes.filter (fun n => n.type = .trigger)).length = 0 then
      ["Workflow must have at least one trigger node"]
    else []
  let orphanErrs :=
    (workflowNodeIds wf).filterMap (fun id =>
      if ¬ (connectedNodeIds wf).contains id ∧
          ((wf.nodes.find? (fun n => n.id = id)).map (fun n => n.type) ≠ some .trigger) then
        some ("Node " ++ id ++ " is not connected to the workflow")
      else none)
  let errs := triggerErrs ++ orphanErrs
  { isValid := errs.isEmpty, errors := errs }

/-- `resumeExecution(executionId, approvalData)`: `Execution ... not found` without a
persisted state; `... is not paused` unless PAUSED; merge the approval payload into the
variables; load the workflow; set RUNNING and checkpoint; re-enter the traversal at the
recorded current node. -/
def resumeExecution (rt : Runtime) (now : ℚ) (opts : ResolvedOptions)
    (executionId : String) (approvalData : Option JFields) (st : Store) :
    Store × Except String ExecutionResult :=
  match getExecution st executionId with
  | none => (st, .error ("Execution " ++ executionId ++ " not found"))
  | some ctx0 =>
    if ctx0.status ≠ .paused then
      (st, .error ("Execution " ++ executionId ++ " is not paused"))
    else
      let ctx1 :=
        match approvalData with
        | some d => { ctx0 with «variables» := ctx0.variables.mergeRight d }
        | none => ctx0
      match getWorkflow st ctx1.workflowId with
      | none => (st, .error ("Workflow " ++ ctx1.workflowId ++ " not found"))
      | some wf =>
        let ctx2 := { ctx1 with status := .running, updatedAt := now }
        let st1 := saveExecution st ctx2
        match (ctx2.currentNodeId.bind (fun cid => wf.nodes.find? (fun n => n.id = cid))) with
        | none =>
          (st1, .error ("Current node " ++ ctx2.currentNodeId.getD "null" ++ " not found"))
        | some currentNode =>
          match executeFromNode rt now opts wf ctx2 currentNode .nil st1 (engineFuel wf opts) with
          | none => (st1, .error "unreachable: traversal fuel exhausted")
          | some (st2, tr) =>
            (st2, .ok
              { success := tr.success
                executionId := executionId
                status := tr.status
                error := tr.error
                stepsExecuted := tr.stepResults.length })

/-- `cancelExecution(executionId)`: set CANCELLED and stamp completion; report `false`
when the store update fails. -/
def cancelExecution (now : ℚ) (st : Store) (executionId : String) : Store × Bool :=
  match updateExecutionStatus now st executionId .cancelled { completedAt := some now } with
  | .ok st' => (st', true)
  | .error _ => (st, false)

/-- `executeWorkflow(workflow, input, executionId?)`: fresh RUNNING context (variables
from the input), checkpoint, find the trigger node (throwing without one), then
`executeFromNode`.  `genId` stands for `generateExecutionId()`. -/
def executeWorkflow (rt : Runtime) (now : ℚ) (o : ExecutionOptions) (wf : Workflow)
    (input : JFields) (executionIdOpt : Option String) (genId : String) (st : Store) :
    Option (Store × ExecutionResult) :=
  let opts := resolveOptions o
  let executionIdFinal :=
    match executionIdOpt with
    | some e => if e = "" then genId else e
    | none => genId
  let ctx : ExecutionContext :=
    { workflowId := wf.id
      executionId := executionIdFinal
      status := .running
      currentNodeId := none
      stepResults := .nil
      «variables» := input
      startedAt := now
      updatedAt := now
      nodeStatuses := []
      nodeVisitCounts := []
      childExecutionIds := [] }
  let st1 := saveExecution st ctx
  match findStartNode wf with
  | none =>
    -- `throw new Error('No trigger node found in workflow')`, caught by the wrapper:
    -- the stored execution is marked failed only when the caller supplied a truthy id.
    let errMsg := "No trigger node found in workflow"
    let st2 :=
      match executionIdOpt with
      | some e =>
        if e = "" then st1
        else
          match updateExecutionStatus now st1 e .failed
              { error := some errMsg, completedAt := some now } with
          | .ok st' => st'
          | .error _ => st1
      | none => st1
    some (st2,
      { success := false, executionId := executionIdFinal, status := .failed,
        error := some errMsg, stepsExecuted := 0 })
  | some startNode =>
    (executeFromNode rt now opts wf ctx startNode input st1 (engineFuel wf opts)).map
      (fun r =>
        (r.1,
         { success := r.2.success
           executionId := executionIdFinal
           status := r.2.status
           error := r.2.error
           stepsExecuted := r.2.stepResults.length }))

/-! ## Concrete fixtures

Small workflows, contexts and a network-free runtime used by the concrete
evaluations below. -/

/-- A runtime whose oracles all fail: no JS evaluation, parsing, network, LLM or spawn
behaviour.  Runs that never reach an oracle are unaffected by the choice. -/
def rtFail : Runtime :=
  { jsEval := fun _ _ => .error "no evaluator"
    jsonParse := fun _ => none
    httpRequest := fun _ _ => { success := false, data := .obj .nil, error := some "no network" }
    agentNode := fun _ _ => { success := false, data := .obj .nil, error := some "no agent" }
    spawnNode := fun _ _ _ st => (st, { success := false, data := .obj .nil, error := some "no spawn" }) }

/-- A manual trigger node. -/
def trigNode : WorkflowNode :=
  { id := "t", type := .trigger, label := "Start", config := { triggerType := some "manual" } }

/-- A loop node with `maxIterations = 3` and no exit expression. -/
def loopNode3 : WorkflowNode :=
  { id := "l", type := .loop, label := "Loop", config := { maxIterations := some 3 } }

/-- A pure notification action node. -/
def actNodeA : WorkflowNode :=
  { id := "a", type := .action, label := "A", config := { actionType := some "notification" } }

/-- A second pure notification action node. -/
def actNodeB : WorkflowNode :=
  { id := "b", type := .action, label := "B", config := { actionType := some "notification" } }

/-- trigger → loop(3) → action, the loop's only outgoing edge labelled as the loop
exit. -/
def wfLin : Workflow :=
  { id := "w1", name := "", description := "", nodes := [trigNode, loopNode3, actNodeA],
    edges := [ { id := "e1", source := "t", target := "l" },
               { id := "e2", source := "l", target := "a", condition := some "exit" } ] }

/-- Like `wfLin` but the loop also has an unguarded edge to `b` — an edge that is not a
loop-exit edge (`'exit'`/`'false'`). -/
def wfTwo : Workflow :=
  { id := "w1b", name := "", description := "", nodes := [trigNode, loopNode3, actNodeA, actNodeB],
    edges := [ { id := "e1", source := "t", target := "l" },
               { id := "e2", source := "l", target := "a", condition := some "exit" },
               { id := "e3", source := "l", target := "b" } ] }

/-- trigger → loop(3) with a self-edge on the loop node. -/
def wfSelf : Workflow :=
  { id := "w1c", name := "", description := "", nodes := [trigNode, loopNode3],
    edges := [ { id := "e1", source := "t", target := "l" },
               { id := "e2", source := "l", target := "l" } ] }

/-- A human-approval node. -/
def apprNode : WorkflowNode :=
  { id := "ap", type := .humanApproval, label := "Gate",
    config := { approvalMessage := some "Please review" } }

/-- trigger → approval → action. -/
def wfAppr : Workflow :=
  { id := "w2", name := "", description := "", nodes := [trigNode, apprNode, actNodeA],
    edges := [ { id := "e1", source := "t", target := "ap" },
               { id := "e2", source := "ap", target := "a" } ] }

/-- The persisted state of an execution of `wfAppr` paused at the approval gate. -/
def ctxPaused : ExecutionContext :=
  { workflowId := "w2", executionId := "x2", status := .paused, currentNodeId := some "ap",
    stepResults := .nil, «variables» := .nil, startedAt := 0, updatedAt := 0,
    nodeStatuses := [("t", .completed), ("ap", .completed)],
    nodeVisitCounts := [("t", 1), ("ap", 1)], childExecutionIds := [] }

/-- A store holding `wfAppr` and the paused execution. -/
def storePaused : Store :=
  { workflows := [("w2", wfAppr)], executions := [("x2", ctxPaused)], approvals := [] }

/-! ## Helper lemmas on the validator's set folds -/

lemma mem_insertOnce {acc : List String} {x y : String} :
    y ∈ insertOnce acc x ↔ y ∈ acc ∨ y = x := by
  unfold insertOnce
  cases h : acc.contains x with
  | true =>
    have hx : x ∈ acc := by simpa using h
    simp only [if_pos rfl]
    constructor
    · exact fun hy => Or.inl hy
    · rintro (hy | rfl)
      · exact hy
      · exact hx
  | false => simp

lemma mem_connectedNodeIds {wf : Workflow} {x : String} :
    x ∈ connectedNodeIds wf ↔ ∃ e ∈ wf.edges, x = e.source ∨ x = e.target := by
  unfold connectedNodeIds
  suffices h : ∀ (es : List WorkflowEdge) (acc : List String),
      x ∈ es.foldl (fun acc e => insertOnce (insertOnce acc e.source) e.target) acc ↔
        x ∈ acc ∨ ∃ e ∈ es, x = e.source ∨ x = e.target by
    simpa using h wf.edges []
  intro es
  induction es with
  | nil => simp
  | cons e es ih =>
    intro acc
    rw [List.foldl_cons, ih]
    simp only [mem_insertOnce, List.mem_cons]
    constructor
    · rintro (((hy | rfl) | rfl) | ⟨f, hf, hsrc⟩)
      · exact Or.inl hy
      · exact Or.inr ⟨e, Or.inl rfl, Or.inl rfl⟩
      · exact Or.inr ⟨e, Or.inl rfl, Or.inr rfl⟩
      · exact Or.inr ⟨f, Or.inr hf, hsrc⟩
    · rintro (hy | ⟨f, (rfl | hf), hsrc⟩)
      · exact Or.inl (Or.inl (Or.inl hy))
      · rcases hsrc with rfl | rfl
        · exact Or.inl (Or.inl (Or.inr rfl))
        · exact Or.inl (Or.inr rfl)
      · exact Or.inr ⟨f, hf, hsrc⟩

lemma mem_workflowNodeIds {wf : Workflow} {x : String} :
    x ∈ workflowNodeIds wf ↔ ∃ n ∈ wf.nodes, x = n.id := by
  unfold workflowNodeIds
  suffices h : ∀ (ns : List WorkflowNode) (acc : List String),
      x ∈ ns.foldl (fun acc n => insertOnce acc n.id) acc ↔
        x ∈ acc ∨ ∃ n ∈ ns, x = n.id by
    simpa using h wf.nodes []
  intro ns
  induction ns with
  | nil => simp
  | cons n ns ih =>
    intro acc
    rw [List.foldl_cons, ih]
    simp only [mem_insertOnce, List.mem_cons]
    constructor
    · rintro ((hy | rfl) | ⟨m, hm, rfl⟩)
      · exact Or.inl hy
      · exact Or.inr ⟨n, Or.inl rfl, rfl⟩
      · exact Or.inr ⟨m, Or.inr hm, rfl⟩
    · rintro (hy | ⟨m, (rfl | hm), rfl⟩)
      · exact Or.inl (Or.inl hy)
      · exact Or.inl (Or.inr rfl)
      · exact Or.inr ⟨m, hm, rfl⟩

lemma find_by_id {l : List WorkflowNode} (hnd : (l.map (fun n => n.id)).Nodup)
    {n : WorkflowNode} (hn : n ∈ l) :
    l.find? (fun m => m.id = n.id) = some n := by
  induction l with
  | nil => cases hn
  | cons m l ih =>
    rcases List.mem_cons.mp hn with rfl | hn'
    · simp [List.find?]
    · have hne : m.id ≠ n.id := by
        intro he
        have : n.id ∈ l.map (fun n => n.id) := List.mem_map_of_mem _ hn'
        rw [← he] at this
        exact (List.nodup_cons.mp (by simpa using hnd)).1 this
      rw [List.find?]
      simp only [hne, decide_eq_true_eq, if_neg]
      · exact ih (by simpa using (List.nodup_cons.mp (by simpa using hnd)).2) hn'

/-! ## C3 — graph validation -/

/-- A trigger plus two action nodes where `a → b` is the only edge: `a` is the source
of an edge but the target of none. -/
def wfSourceOnly : Workflow :=
  { id := "w3", name := "", description := "", nodes := [trigNode, actNodeA, actNodeB],
    edges := [ { id := "e1", source := "a", target := "b" } ] }

/-- C3 (counterexample): the claim says `validate` returns valid=false whenever some
non-start node is not a **target** of any edge.  In `wfSourceOnly` the action node `a`
is a target of no edge, yet `validateWorkflow` accepts the graph, because the source
counts both endpoints of every edge as "connected". -/
theorem validateWorkflow_target_only_counterexample :
    (validateWorkflow wfSourceOnly).isValid = true ∧
    actNodeA ∈ wfSourceOnly.nodes ∧
    actNodeA.type ≠ NodeType.trigger ∧
    ∀ e ∈ wfSourceOnly.edges, e.target ≠ actNodeA.id := by
  decide

/-- C3 (amended): with unique node ids, `validateWorkflow` accepts a graph iff it has
a trigger node and every non-trigger node is an **endpoint** (source or target) of some
edge; cycles never contribute errors (the validity value depends on nothing else). -/
theorem validateWorkflow_valid_iff (wf : Workflow)
    (hnd : (wf.nodes.map (fun n => n.id)).Nodup) :
    (validateWorkflow wf).isValid = true ↔
      ((∃ n ∈ wf.nodes, n.type = NodeType.trigger) ∧
        ∀ n ∈ wf.nodes, n.type ≠ NodeType.trigger →
          ∃ e ∈ wf.edges, n.id = e.source ∨ n.id = e.target) := by
  have hval : (validateWorkflow wf).isValid = true ↔
      ((wf.nodes.filter (fun n => n.type = NodeType.trigger)).length ≠ 0 ∧
        ∀ id ∈ workflowNodeIds wf,
          id ∈ connectedNodeIds wf ∨
          ((wf.nodes.find? (fun n => n.id = id)).map (fun n => n.type) =
            some NodeType.trigger)) := by
    simp only [validateWorkflow, List.isEmpty_iff, List.append_eq_nil,
      List.filterMap_eq_nil_iff, ite_eq_right_iff]
    constructor
    · rintro ⟨h1, h2⟩
      refine ⟨fun h0 => by simpa using h1 h0, fun id hid => ?_⟩
      have h3 := h2 id hid
      by_contra hcon
      push_neg at hcon
      have h4 : some ("Node " ++ id ++ " is not connected to the workflow") = none :=
        h3 ⟨by simpa using hcon.1, hcon.2⟩
      exact absurd h4 (by simp)
    · rintro ⟨h1, h2⟩
      refine ⟨fun h0 => absurd h0 h1, fun id hid => ?_⟩
      rintro ⟨hc, ht⟩
      exfalso
      rcases h2 id hid with hmem | htrig
      · exact hc (by simpa using hmem)
      · exact ht htrig
  rw [hval]
  constructor
  · rintro ⟨h1, h2⟩
    constructor
    · rcases List.exists_mem_of_length_pos (Nat.pos_of_ne_zero h1) with ⟨n, hn⟩
      · exact ⟨n, (List.mem_filter.mp hn).1, by simpa using (List.mem_filter.mp hn).2⟩
    · intro n hn hnt
      have hid : n.id ∈ workflowNodeIds wf := mem_workflowNodeIds.mpr ⟨n, hn, rfl⟩
      rcases h2 n.id hid with hc | ht
      · rcases mem_connectedNodeIds.mp hc with ⟨e, he, hor⟩
        exact ⟨e, he, hor⟩
      · rw [find_by_id hnd hn] at ht
        simp only [Option.map_some'] at ht
        exact absurd (by injection ht) hnt
  · rintro ⟨⟨n, hn, hnt⟩, h2⟩
    constructor
    · intro h0
      have : n ∈ wf.nodes.filter (fun n => n.type = NodeType.trigger) :=
        List.mem_filter.mpr ⟨hn, by simpa using hnt⟩
      rw [List.length_eq_zero.mp h0] at this
      cases this
    · intro id hid
      rcases mem_workflowNodeIds.mp hid with ⟨m, hm, rfl⟩
      by_cases hmt : m.type = NodeType.trigger
      · right
        rw [find_by_id hnd hm]
        simp [hmt]
      · left
        rcases h2 m hm hmt with ⟨e, he, hor⟩
        exact mem_connectedNodeIds.mpr ⟨e, he, hor⟩

/-- Witness for C3's amended theorem at the linear workflow fixture. -/
theorem validateWorkflow_valid_iff_witness :
    ((wfLin.nodes.map (fun n => n.id)).Nodup) ∧
    ((validateWorkflow wfLin).isValid = true ↔
      ((∃ n ∈ wfLin.nodes, n.type = NodeType.trigger) ∧
        ∀ n ∈ wfLin.nodes, n.type ≠ NodeType.trigger →
          ∃ e ∈ wfLin.edges, n.id = e.source ∨ n.id = e.target)) :=
  ⟨by decide, validateWorkflow_valid_iff wfLin (by decide)⟩

/-! ## Association-list lemmas -/

lemma alistGet_cons_ne {α : Type} (x : String × α) (xs : List (String × α))
    (k : String) (h : ¬ x.1 = k) : alistGet (x :: xs) k = alistGet xs k := by
  simp [alistGet, List.find?, h]

lemma alistGet_map_set_pos {α : Type} (xs : List (String × α)) (k : String) (v : α)
    (hany : xs.any (fun x => x.1 = k) = true) :
    alistGet (xs.map (fun x => if x.1 = k then (k, v) else x)) k = some v := by
  induction xs with
  | nil => simp at hany
  | cons x xs ih =>
    by_cases h : x.1 = k
    · simp [alistGet, h, List.find?]
    · have htail : xs.any (fun x => x.1 = k) = true := by
        simpa [List.any_cons, h] using hany
      rw [List.map_cons, if_neg h, alistGet_cons_ne x _ k h]
      exact ih htail

lemma alistGet_map_set_ne {α : Type} (xs : List (String × α)) (k k' : String) (v : α)
    (h : k' ≠ k) :
    alistGet (xs.map (fun x => if x.1 = k then (k, v) else x)) k' = alistGet xs k' := by
  induction xs with
  | nil => simp
  | cons x xs ih =>
    by_cases hx : x.1 = k
    · have hx' : ¬ ((k, v).1 = k') := fun he => h he.symm
      have hxk' : ¬ (x.1 = k') := by rw [hx]; exact fun he => h he.symm
      rw [List.map_cons, if_pos hx, alistGet_cons_ne _ _ k' hx', alistGet_cons_ne x xs k' hxk', ih]
    · by_cases hk' : x.1 = k'
      · have h1 : (x :: xs.map (fun x => if x.1 = k then (k, v) else x)).find?
            (fun y => y.1 = k') = some x := List.find?_cons_of_pos _ (by simpa using hk')
        have h2 : (x :: xs).find? (fun y => y.1 = k') = some x :=
          List.find?_cons_of_pos _ (by simpa using hk')
        rw [List.map_cons, if_neg hx]
        unfold alistGet
        rw [h1, h2]
      · rw [List.map_cons, if_neg hx, alistGet_cons_ne _ _ k' hk', alistGet_cons_ne x xs k' hk', ih]

lemma alistGet_append_single {α : Type} (xs : List (String × α)) (k : String) (v : α)
    (h : ∀ x ∈ xs, x.1 ≠ k) :
    alistGet (xs ++ [(k, v)]) k = some v := by
  induction xs with
  | nil => simp [alistGet, List.find?]
  | cons x xs ih =>
    have hx : ¬ x.1 = k := h x (List.mem_cons_self x xs)
    rw [List.cons_append, alistGet_cons_ne x _ k hx]
    exact ih (fun y hy => h y (List.mem_cons_of_mem x hy))

lemma alistGet_append_single_ne {α : Type} (xs : List (String × α)) (k k' : String)
    (v : α) (h : k' ≠ k) :
    alistGet (xs ++ [(k, v)]) k' = alistGet xs k' := by
  induction xs with
  | nil =>
    have h' : ¬ (k = k') := fun he => h he.symm
    simp [alistGet, List.find?, h']
  | cons x xs ih =>
    by_cases hk' : x.1 = k'
    · have h1 : ((x :: xs) ++ [(k, v)]).find? (fun y => y.1 = k') = some x :=
        List.find?_cons_of_pos _ (by simpa using hk')
      have h2 : (x :: xs).find? (fun y => y.1 = k') = some x :=
        List.find?_cons_of_pos _ (by simpa using hk')
      unfold alistGet
      rw [h1, h2]
    · rw [List.cons_append, alistGet_cons_ne x _ k' hk', alistGet_cons_ne x xs k' hk', ih]

lemma alistGet_set_self {α : Type} (xs : List (String × α)) (k : String) (v : α) :
    alistGet (alistSet xs k v) k = some v := by
  by_cases h : xs.any (fun x => x.1 = k)
  · rw [alistSet, if_pos h]
    exact alistGet_map_set_pos xs k v h
  · rw [alistSet, if_neg h]
    refine alistGet_append_single xs k v ?_
    intro x hx hxk
    exact h (List.any_eq_true.mpr ⟨x, hx, by simpa using hxk⟩)

lemma alistGet_set_ne {α : Type} (xs : List (String × α)) (k k' : String) (v : α)
    (h : k' ≠ k) :
    alistGet (alistSet xs k v) k' = alistGet xs k' := by
  by_cases hany : xs.any (fun x => x.1 = k)
  · rw [alistSet, if_pos hany]
    exact alistGet_map_set_ne xs k k' v h
  · rw [alistSet, if_neg hany]
    exact alistGet_append_single_ne xs k k' v h

set_option linter.unnecessarySimpa false in
lemma alistGet_del_self {α : Type} (xs : List (String × α)) (k : String) :
    alistGet (alistDel xs k) k = none := by
  induction xs with
  | nil => simp [alistGet, alistDel]
  | cons x xs ih =>
    by_cases hx : x.1 = k
    · simpa [alistDel, hx] using ih
    · simpa [alistDel, alistGet, List.find?, hx] using ih

/-! ## Lemmas about one engine iteration -/

lemma stepIter_thrown (rt : Runtime) (now : ℚ) (opts : ResolvedOptions)
    (wf : Workflow) (td : JFields) (s : EngineState) (node : WorkflowNode)
    (rest : List WorkflowNode)
    (hstack : s.stack = node :: rest)
    (hvis : s.visited.contains node.id = true)
    (hcount : (alistGet s.ctx.nodeVisitCounts node.id).getD 0 ≥ opts.maxIterations) :
    stepIter rt now opts wf td s =
      .thrown s.store s.ctx node.id
        ("Maximum iterations (" ++ toString opts.maxIterations ++ ") exceeded for node "
          ++ node.id) := by
  unfold stepIter
  rw [hstack]
  exact if_pos ⟨hvis, hcount⟩

lemma stepIter_next_stack (rt : Runtime) (now : ℚ) (opts : ResolvedOptions)
    (wf : Workflow) (td : JFields) (s : EngineState) (node : WorkflowNode)
    (rest : List WorkflowNode) (st2 : Store) (out : NodeOutcome)
    (hstack : s.stack = node :: rest)
    (hlim : ¬ (s.visited.contains node.id = true ∧
      (alistGet s.ctx.nodeVisitCounts node.id).getD 0 ≥ opts.maxIterations))
    (hexec : executeNodeF rt now node (markRunning s.ctx node.id) wf td
      (saveExecution s.store (markRunning s.ctx node.id)) = (st2, out))
    (hsucc : out.success = true)
    (hna : node.type ≠ NodeType.humanApproval)
    (hnl : ¬ (node.type = NodeType.loop ∧ (out.data.get "shouldContinue").truthy = true)) :
    ∃ s', stepIter rt now opts wf td s = .next s' ∧
      s'.stack =
        (if node.type = NodeType.condition then
          getConditionalNextNodes wf node (out.data.get "result").truthy ++ rest
        else getNextNodes wf node ++ rest) ∧
      alistGet s'.ctx.nodeVisitCounts node.id =
        some ((alistGet s.ctx.nodeVisitCounts node.id).getD 0 + 1) := by
  unfold stepIter
  rw [hstack]
  simp only []
  rw [if_neg hlim]
  simp only [hexec, hsucc, not_true_eq_false, if_false, Bool.not_true]
  rw [if_neg hna, if_neg hnl]
  refine ⟨_, rfl, rfl, ?_⟩
  simp only [markRunning]
  exact alistGet_set_self _ _ _

lemma stepIter_loop_continue (rt : Runtime) (now : ℚ) (opts : ResolvedOptions)
    (wf : Workflow) (td : JFields) (s : EngineState) (node : WorkflowNode)
    (rest : List WorkflowNode) (st2 : Store) (out : NodeOutcome)
    (hstack : s.stack = node :: rest)
    (hlim : ¬ (s.visited.contains node.id = true ∧
      (alistGet s.ctx.nodeVisitCounts node.id).getD 0 ≥ opts.maxIterations))
    (hexec : executeNodeF rt now node (markRunning s.ctx node.id) wf td
      (saveExecution s.store (markRunning s.ctx node.id)) = (st2, out))
    (hsucc : out.success = true)
    (hl : node.type = NodeType.loop)
    (htruthy : (out.data.get "shouldContinue").truthy = true) :
    ∃ s', stepIter rt now opts wf td s = .next s' ∧
      s'.stack = node :: rest ∧
      alistGet s'.ctx.nodeVisitCounts node.id =
        some ((alistGet s.ctx.nodeVisitCounts node.id).getD 0 + 1) := by
  unfold stepIter
  rw [hstack]
  simp only []
  rw [if_neg hlim]
  simp only [hexec, hsucc, not_true_eq_false, if_false, Bool.not_true]
  have hna : ¬ (node.type = NodeType.humanApproval) := by rw [hl]; intro h; cases h
  rw [if_neg hna, if_pos ⟨hl, htruthy⟩]
  refine ⟨_, rfl, rfl, ?_⟩
  simp only [markRunning]
  exact alistGet_set_self _ _ _

/-! ## C4 — conditional routing -/

/-- The guard matching actually implemented for condition branching: on the true branch
edges with an absent/empty guard or the sentinels `'true'`/`'True'`; on the false
branch the sentinels `'false'`/`'False'`. -/
def guardMatches : Bool → Option String → Bool
  | true, c => strFalsy c || decide (c = some "true") || decide (c = some "True")
  | false, c => decide (c = some "false") || decide (c = some "False")

/-- A condition node whose expression is an (uninterpolatable) template. -/
def condNode : WorkflowNode :=
  { id := "c", type := .condition, label := "Cond",
    config := { expression := some "\x7b\x7bx\x7d\x7d" } }

/-- trigger → condition with a `'True'`-guarded edge to `a` and a `'false'`-guarded
edge to `b`. -/
def wfCond : Workflow :=
  { id := "w4", name := "", description := "", nodes := [trigNode, condNode, actNodeA, actNodeB],
    edges := [ { id := "e1", source := "t", target := "c" },
               { id := "e2", source := "c", target := "a", condition := some "True" },
               { id := "e3", source := "c", target := "b", condition := some "false" } ] }

/-- A runtime whose evaluator accepts exactly the probe expression `true` and throws on
everything else. -/
def rtCondTrue : Runtime :=
  { rtFail with jsEval := fun e _ => if e = "true" then .ok (.bool true) else .error "boom" }

/-- A fresh running context for `wfCond`. -/
def ctxFresh : ExecutionContext :=
  { workflowId := "w4", executionId := "x4", status := .running, currentNodeId := none,
    stepResults := .nil, «variables» := .nil, startedAt := 0, updatedAt := 0,
    nodeStatuses := [], nodeVisitCounts := [], childExecutionIds := [] }

/-- C4 (counterexample): with a true branch result the engine also follows an edge
guarded by the sentinel `'True'`, which is neither an unguarded edge nor the claimed
sentinel `"true"`. -/
theorem conditionRouting_counterexample :
    actNodeA ∈ getConditionalNextNodes wfCond condNode true ∧
    (∀ e ∈ wfCond.edges, e.target = actNodeA.id →
      e.condition ≠ none ∧ e.condition ≠ some "true") := by
  decide

/-- C4 (amended): a node is followed from a condition node iff some outgoing edge's
guard matches the branch — absent/empty/`'true'`/`'True'` guards for the true branch,
`'false'`/`'False'` guards for the false branch (zero matches giving the empty
follow-up list); and after a successful condition step the engine pushes exactly that
follow-up set onto the stack. -/
theorem conditionRouting_amended :
    (∀ (wf : Workflow) (cnode : WorkflowNode) (b : Bool) (n : WorkflowNode),
      n ∈ getConditionalNextNodes wf cnode b ↔
        ∃ e ∈ wf.edges, e.source = cnode.id ∧ guardMatches b e.condition = true ∧
          wf.nodes.find? (fun m => m.id = e.target) = some n) ∧
    (∀ (rt : Runtime) (now : ℚ) (opts : ResolvedOptions) (wf : Workflow) (td : JFields)
      (s : EngineState) (node : WorkflowNode) (rest : List WorkflowNode)
      (st2 : Store) (out : NodeOutcome),
      s.stack = node :: rest →
      node.type = NodeType.condition →
      ¬ (s.visited.contains node.id = true ∧
        (alistGet s.ctx.nodeVisitCounts node.id).getD 0 ≥ opts.maxIterations) →
      executeNodeF rt now node (markRunning s.ctx node.id) wf td
        (saveExecution s.store (markRunning s.ctx node.id)) = (st2, out) →
      out.success = true →
      ∃ s', stepIter rt now opts wf td s = .next s' ∧
        s'.stack = getConditionalNextNodes wf node (out.data.get "result").truthy ++ rest) := by
  constructor
  · intro wf cnode b n
    have hsplit : getConditionalNextNodes wf cnode b =
        ((wf.edges.filter (fun e => e.source = cnode.id)).filter
          (fun e => guardMatches b e.condition)).filterMap
          (fun e => wf.nodes.find? (fun m => m.id = e.target)) := by
      cases b
      · rw [getConditionalNextNodes, if_neg (by simp)]
        rfl
      · rw [getConditionalNextNodes, if_pos rfl]
        rfl
    rw [hsplit]
    constructor
    · intro h
      rcases List.mem_filterMap.mp h with ⟨e, he, hf⟩
      rcases List.mem_filter.mp he with ⟨he2, hg⟩
      rcases List.mem_filter.mp he2 with ⟨hee, hsrc⟩
      exact ⟨e, hee, by simpa using hsrc, hg, hf⟩
    · rintro ⟨e, hee, hsrc, hg, hf⟩
      exact List.mem_filterMap.mpr
        ⟨e, List.mem_filter.mpr ⟨List.mem_filter.mpr ⟨hee, by simpa using hsrc⟩, hg⟩, hf⟩
  · intro rt now opts wf td s node rest st2 out hstack hcond hlim hexec hsucc
    have hna : node.type ≠ NodeType.humanApproval := by rw [hcond]; intro h; cases h
    have hnl : ¬ (node.type = NodeType.loop ∧ (out.data.get "shouldContinue").truthy = true) := by
      rintro ⟨h, -⟩
      rw [hcond] at h
      cases h
    rcases stepIter_next_stack rt now opts wf td s node rest st2 out hstack hlim hexec hsucc
      hna hnl with ⟨s', hstep, hstk, hcnt⟩
    refine ⟨s', hstep, ?_⟩
    rw [hstk, if_pos hcond]

/-- Witness for C4's amended theorem: the condition fixture follows the false branch
(the evaluator threw, the result degraded to `false`), pushing exactly the
`'false'`-guarded successor. -/
theorem conditionRouting_amended_witness :
    (condNode.type = NodeType.condition) ∧
    ((executeNodeF rtCondTrue 0 condNode (markRunning ctxFresh condNode.id) wfCond .nil
      (saveExecution {} (markRunning ctxFresh condNode.id))).2.success = true) ∧
    (actNodeB ∈ getConditionalNextNodes wfCond condNode false ↔
      ∃ e ∈ wfCond.edges, e.source = condNode.id ∧
        guardMatches false e.condition = true ∧
        wfCond.nodes.find? (fun m => m.id = e.target) = some actNodeB) ∧
    (∃ s', stepIter rtCondTrue 0 (resolveOptions {}) wfCond .nil
        { store := {}, ctx := ctxFresh, visited := [], stack := [condNode] } = .next s' ∧
      s'.stack = getConditionalNextNodes wfCond condNode
        (((executeNodeF rtCondTrue 0 condNode (markRunning ctxFresh condNode.id) wfCond .nil
          (saveExecution {} (markRunning ctxFresh condNode.id))).2.data.get "result").truthy)
        ++ []) :=
  ⟨rfl, by decide,
   conditionRouting_amended.1 wfCond condNode false actNodeB,
   conditionRouting_amended.2 rtCondTrue 0 (resolveOptions {}) wfCond .nil
     { store := {}, ctx := ctxFresh, visited := [], stack := [condNode] } condNode []
     _ _ rfl rfl (by decide) rfl (by decide)⟩

/-! ## C9 — expression sandboxing (code bug)

The spec requires every reflective/host/environment access to be rejected or
sandboxed.  The implementation's only defence is the substring blacklist
`containsUnsafeCode` in front of `new Function(...)`, and the custom-aggregation
path has no check at all. -/

/-- C9 (code bug): the blacklist passes the expression `this` — which inside a
non-strict `new Function` body evaluates to `globalThis`, the global object — so
`safeEval` hands it to the evaluator instead of rejecting it; and
`executeCustomAggregation` performs no screening at all: it evaluates
`process.env.SECRET` (an expression the blacklist itself classifies as unsafe)
and returns its value. -/
theorem unsafe_blacklist_bypass :
    containsUnsafeCode "this" = false ∧
    (∀ (jsEval : JsEval) (ctx : JFields), safeEval jsEval "this" ctx =
      match jsEval "this" ctx with
      | .ok v => .ok v
      | .error e => .error ("Expression evaluation failed: " ++ e)) ∧
    containsUnsafeCode "process.env.SECRET" = true ∧
    executeCustomAggregation (fun _ _ => .ok (.str "evaluated")) []
      "process.env.SECRET" = .str "evaluated" := by
  refine ⟨by decide, fun jsEval ctx => ?_, by decide, by decide⟩
  rw [safeEval, if_neg]
  intro h
  exact absurd h (by decide)

/-! ## C7 — majority aggregation -/

/-- The number of votes a value receives: children whose result serializes to the same
`JSON.stringify` key (the deep equality used by the voting map). -/
def countVotes (results : List JValue) (v : JValue) : Nat :=
  results.countP (fun r => jsonStringify r = jsonStringify v)

lemma addVote_inv (p : List JValue) (r : JValue) (acc : List (String × JValue × Nat))
    (hacc : ∀ e ∈ acc, e.1 = jsonStringify e.2.1 ∧
      e.2.2 = p.countP (fun x => jsonStringify x = e.1))
    (hcomp : ∀ x ∈ p, ∃ e ∈ acc, e.1 = jsonStringify x) :
    (∀ e ∈ addVote acc r, e.1 = jsonStringify e.2.1 ∧
      e.2.2 = (p ++ [r]).countP (fun x => jsonStringify x = e.1)) ∧
    (∀ x ∈ p ++ [r], ∃ e ∈ addVote acc r, e.1 = jsonStringify x) := by
  have hcount : ∀ k, (p ++ [r]).countP (fun x => jsonStringify x = k) =
      p.countP (fun x => jsonStringify x = k) +
        (if jsonStringify r = k then 1 else 0) := by
    intro k
    rw [List.countP_append]
    congr 1
    by_cases h : jsonStringify r = k <;> simp [List.countP, List.countP.go, h]
  by_cases hany : acc.any (fun e => e.1 = jsonStringify r)
  · constructor
    · intro e he
      rw [addVote, if_pos hany] at he
      rcases List.mem_map.mp he with ⟨e0, he0, hmap⟩
      rcases hacc e0 he0 with ⟨hk, hc⟩
      by_cases h0 : e0.1 = jsonStringify r
      · rw [if_pos h0] at hmap
        subst hmap
        refine ⟨hk, ?_⟩
        show e0.2.2 + 1 = _
        rw [hcount, if_pos h0.symm, ← hc]
      · rw [if_neg h0] at hmap
        subst hmap
        refine ⟨hk, ?_⟩
        rw [hcount, if_neg (fun he => h0 he.symm), hc]
        omega
    · intro x hx
      rcases List.mem_append.mp hx with hxp | hxr
      · rcases hcomp x hxp with ⟨e, he, hk⟩
        refine ⟨if e.1 = jsonStringify r then (e.1, e.2.1, e.2.2 + 1) else e, ?_, ?_⟩
        · rw [addVote, if_pos hany]
          exact List.mem_map.mpr ⟨e, he, rfl⟩
        · by_cases h : e.1 = jsonStringify r
          · rw [if_pos h]
            exact hk
          · rw [if_neg h]
            exact hk
      · rcases List.any_eq_true.mp hany with ⟨e, he, hkb⟩
        have hk : e.1 = jsonStringify r := of_decide_eq_true hkb
        simp only [List.mem_singleton] at hxr
        subst hxr
        refine ⟨if e.1 = jsonStringify x then (e.1, e.2.1, e.2.2 + 1) else e, ?_, ?_⟩
        · rw [addVote, if_pos hany]
          exact List.mem_map.mpr ⟨e, he, rfl⟩
        · rw [if_pos hk]
          exact hk
  · have hknew : ∀ e ∈ acc, ¬ (e.1 = jsonStringify r) := by
      intro e he hk
      exact hany (List.any_eq_true.mpr ⟨e, he, by simpa using hk⟩)
    have hzero : p.countP (fun x => jsonStringify x = jsonStringify r) = 0 := by
      by_contra hz
      have hpos : 0 < p.countP (fun x => jsonStringify x = jsonStringify r) :=
        Nat.pos_of_ne_zero hz
      rcases List.countP_pos_iff.mp hpos with ⟨x, hxp, hxk⟩
      rcases hcomp x hxp with ⟨e, he, hk⟩
      exact hknew e he (by rw [hk]; exact of_decide_eq_true hxk)
    constructor
    · intro e he
      rw [addVote, if_neg hany] at he
      rcases List.mem_append.mp he with he0 | henew
      · rcases hacc e he0 with ⟨hk, hc⟩
        refine ⟨hk, ?_⟩
        rw [hcount, if_neg (fun h => hknew e he0 h.symm), hc]
        omega
      · simp only [List.mem_singleton] at henew
        subst henew
        refine ⟨rfl, ?_⟩
        show 1 = _
        rw [hcount, if_pos rfl, hzero]
    · intro x hx
      rcases List.mem_append.mp hx with hxp | hxr
      · rcases hcomp x hxp with ⟨e, he, hk⟩
        exact ⟨e, by rw [addVote, if_neg hany]; exact List.mem_append_left _ he, hk⟩
      · simp only [List.mem_singleton] at hxr
        subst hxr
        exact ⟨(jsonStringify x, x, 1), by
          rw [addVote, if_neg hany]
          exact List.mem_append_right _ (List.mem_singleton_self _), rfl⟩

lemma majorityCounts_inv (rs : List JValue) :
    (∀ e ∈ majorityCounts rs, e.1 = jsonStringify e.2.1 ∧
      e.2.2 = rs.countP (fun x => jsonStringify x = e.1)) ∧
    (∀ x ∈ rs, ∃ e ∈ majorityCounts rs, e.1 = jsonStringify x) := by
  suffices h : ∀ (l p : List JValue) (acc : List (String × JValue × Nat)),
      (∀ e ∈ acc, e.1 = jsonStringify e.2.1 ∧
        e.2.2 = p.countP (fun x => jsonStringify x = e.1)) →
      (∀ x ∈ p, ∃ e ∈ acc, e.1 = jsonStringify x) →
      (∀ e ∈ l.foldl addVote acc, e.1 = jsonStringify e.2.1 ∧
        e.2.2 = (p ++ l).countP (fun x => jsonStringify x = e.1)) ∧
      (∀ x ∈ p ++ l, ∃ e ∈ l.foldl addVote acc, e.1 = jsonStringify x) by
    have h0 := h rs [] [] (by intro e he; cases he) (by intro x hx; cases hx)
    rw [List.nil_append] at h0
    exact h0
  intro l
  induction l with
  | nil =>
    intro p acc h1 h2
    rw [List.foldl_nil, List.append_nil]
    exact ⟨h1, h2⟩
  | cons r l ih =>
    intro p acc h1 h2
    rcases addVote_inv p r acc h1 h2 with ⟨h1n, h2n⟩
    have h3 := ih (p ++ [r]) (addVote acc r) h1n h2n
    rw [List.append_assoc] at h3
    rw [List.foldl_cons]
    exact h3

lemma pickMajority_fold (l : List (String × JValue × Nat)) :
    ∀ (best : JValue × Nat),
      ((l.foldl (fun best e => if e.2.2 > best.2 then (e.2.1, e.2.2) else best) best)
          = best ∨
        ∃ e ∈ l, (l.foldl (fun best e => if e.2.2 > best.2 then (e.2.1, e.2.2) else best)
          best) = (e.2.1, e.2.2)) ∧
      best.2 ≤ (l.foldl (fun best e => if e.2.2 > best.2 then (e.2.1, e.2.2) else best)
        best).2 ∧
      ∀ e ∈ l, e.2.2 ≤ (l.foldl
        (fun best e => if e.2.2 > best.2 then (e.2.1, e.2.2) else best) best).2 := by
  induction l with
  | nil =>
    intro best
    refine ⟨Or.inl rfl, Nat.le_refl _, ?_⟩
    intro e he
    cases he
  | cons e l ih =>
    intro best
    rw [List.foldl_cons]
    by_cases h : e.2.2 > best.2
    · rw [if_pos h]
      rcases ih (e.2.1, e.2.2) with ⟨hcase, hle, hall⟩
      refine ⟨?_, ?_, ?_⟩
      · rcases hcase with hc | ⟨e0, he0, hc⟩
        · exact Or.inr ⟨e, List.mem_cons_self e l, hc⟩
        · exact Or.inr ⟨e0, List.mem_cons_of_mem e he0, hc⟩
      · exact Nat.le_trans (Nat.le_of_lt h) hle
      · intro e0 he0
        rcases List.mem_cons.mp he0 with rfl | he0
        · exact hle
        · exact hall e0 he0
    · rw [if_neg h]
      rcases ih best with ⟨hcase, hle, hall⟩
      refine ⟨?_, hle, ?_⟩
      · rcases hcase with hc | ⟨e0, he0, hc⟩
        · exact Or.inl hc
        · exact Or.inr ⟨e0, List.mem_cons_of_mem e he0, hc⟩
      · intro e0 he0
        rcases List.mem_cons.mp he0 with rfl | he0
        · exact Nat.le_trans (Nat.le_of_not_lt h) hle
        · exact hall e0 he0

/-- `{"ok": true}`. -/
def okTrueJ : JValue := .obj (.cons "ok" (.bool true) .nil)

/-- `{"ok": false}`. -/
def okFalseJ : JValue := .obj (.cons "ok" (.bool false) .nil)

/-- Three spawn children: two returned `{"ok":true}` and one `{"ok":false}`. -/
def spawnItemsC7 : List SpawnResultItem :=
  [ { success := true, data := .obj (.cons "result" okTrueJ .nil) },
    { success := true, data := .obj (.cons "result" okTrueJ .nil) },
    { success := true, data := .obj (.cons "result" okFalseJ .nil) } ]

/-- C7: with the `majority` strategy the aggregate is `{result, confidence, totalVotes}`
where `result` receives a maximal number of deep-equality votes, `confidence` is
`votes(result)/total` and `totalVotes` the number of children; in particular, for two
`{"ok":true}` children and one `{"ok":false}`, the result is `{"ok":true}` with
confidence `2/3` (whose 3-decimal rounding is `0.667`) and `totalVotes` 3. -/
theorem majority_aggregation :
    (∀ rs : List JValue, rs ≠ [] →
      ∃ mv : JValue,
        (aggregateByMajority rs).get "result" = mv ∧
        (aggregateByMajority rs).get "totalVotes" = .num rs.length ∧
        (aggregateByMajority rs).get "confidence" =
          .num ((countVotes rs mv : ℚ) / (rs.length : ℚ)) ∧
        ∀ v ∈ rs, countVotes rs v ≤ countVotes rs mv) ∧
    ((aggregateResults (fun _ _ => .error "nope") spawnItemsC7 (some "majority")
        none).get "result" = okTrueJ ∧
      (aggregateResults (fun _ _ => .error "nope") spawnItemsC7 (some "majority")
        none).get "totalVotes" = .num 3 ∧
      ∃ q : ℚ, (aggregateResults (fun _ _ => .error "nope") spawnItemsC7 (some "majority")
        none).get "confidence" = .num q ∧ q = 2 / 3 ∧ ⌊q * 1000 + 1 / 2⌋ = 667) := by
  constructor
  · intro rs hne
    obtain ⟨hinv1, hinv2⟩ := majorityCounts_inv rs
    obtain ⟨hcase, -, hall⟩ := pickMajority_fold (majorityCounts rs) (.null, 0)
    obtain ⟨r0, hr0⟩ := List.exists_mem_of_ne_nil rs hne
    obtain ⟨e0, he0, hk0⟩ := hinv2 r0 hr0
    have he0pos : 1 ≤ e0.2.2 := by
      rw [(hinv1 e0 he0).2]
      refine List.countP_pos_iff.mpr ⟨r0, hr0, ?_⟩
      simp [hk0]
    have hrespos : 1 ≤ (pickMajority (majorityCounts rs)).2 :=
      Nat.le_trans he0pos (hall e0 he0)
    rcases hcase with hres | ⟨e, he, hres⟩
    · rw [show pickMajority (majorityCounts rs) =
        (majorityCounts rs).foldl
          (fun best e => if e.2.2 > best.2 then (e.2.1, e.2.2) else best)
          (.null, 0) from rfl, hres] at hrespos
      exact absurd hrespos (by decide)
    · have hresfold : pickMajority (majorityCounts rs) = (e.2.1, e.2.2) := hres
      have hek := (hinv1 e he).1
      have hec := (hinv1 e he).2
      have hcv : countVotes rs e.2.1 = e.2.2 := by
        rw [countVotes, hec, hek]
      have hagg : aggregateByMajority rs =
          .obj (.cons "result" e.2.1
            (.cons "confidence" (.num ((e.2.2 : ℚ) / (rs.length : ℚ)))
              (.cons "totalVotes" (.num rs.length) .nil))) := by
        rw [aggregateByMajority, hresfold]
      refine ⟨e.2.1, ?_, ?_, ?_, ?_⟩
      · rw [hagg]
        rfl
      · rw [hagg]
        rfl
      · rw [hagg, hcv]
        rfl
      · intro v hv
        obtain ⟨e', he', hk'⟩ := hinv2 v hv
        have : countVotes rs v = e'.2.2 := by
          rw [countVotes, (hinv1 e' he').2, hk']
        rw [this, hcv]
        have hb := hall e' he'
        rw [hres] at hb
        exact hb
  · have hagg2 : aggregateResults (fun _ _ => .error "nope") spawnItemsC7
        (some "majority") none = aggregateByMajority [okTrueJ, okTrueJ, okFalseJ] := rfl
    have hpick : pickMajority (majorityCounts [okTrueJ, okTrueJ, okFalseJ]) =
        (okTrueJ, 2) := by decide
    have hagg3 : aggregateByMajority [okTrueJ, okTrueJ, okFalseJ] =
        .obj (.cons "result" okTrueJ
          (.cons "confidence" (.num (((2 : Nat) : ℚ) / ((3 : Nat) : ℚ)))
            (.cons "totalVotes" (.num (3 : Nat)) .nil))) := by
      rw [aggregateByMajority, hpick]
      rfl
    rw [hagg2, hagg3]
    refine ⟨rfl, rfl, ((2 : Nat) : ℚ) / ((3 : Nat) : ℚ), rfl, by norm_num, ?_⟩
    have hq : (((2 : Nat) : ℚ) / ((3 : Nat) : ℚ)) * 1000 + 1 / 2 = 4003 / 6 := by
      norm_num
    rw [hq, Int.floor_eq_iff]
    constructor
    · norm_num
    · norm_num

/-- Witness for C7 at the claim's 2-vs-1 instance. -/
theorem majority_aggregation_witness :
    ([okTrueJ, okTrueJ, okFalseJ] : List JValue) ≠ [] ∧
    (∃ mv : JValue,
      (aggregateByMajority [okTrueJ, okTrueJ, okFalseJ]).get "result" = mv ∧
      (aggregateByMajority [okTrueJ, okTrueJ, okFalseJ]).get "totalVotes" =
        .num ([okTrueJ, okTrueJ, okFalseJ] : List JValue).length ∧
      (aggregateByMajority [okTrueJ, okTrueJ, okFalseJ]).get "confidence" =
        .num ((countVotes [okTrueJ, okTrueJ, okFalseJ] mv : ℚ) /
          (([okTrueJ, okTrueJ, okFalseJ] : List JValue).length : ℚ)) ∧
      ∀ v ∈ ([okTrueJ, okTrueJ, okFalseJ] : List JValue),
        countVotes [okTrueJ, okTrueJ, okFalseJ] v ≤
          countVotes [okTrueJ, okTrueJ, okFalseJ] mv) :=
  ⟨by decide, majority_aggregation.1 [okTrueJ, okTrueJ, okFalseJ] (by decide)⟩

/-! ## C5 — retry with exponential backoff -/

/-- The sleep before the retry that follows attempt `i`:
`retryDelayMs * backoffMultiplier ^ (attempt - 1)`. -/
def delayAt (cfg : RetryConfig) (attempt : Nat) : ℚ :=
  cfg.retryDelayMs * cfg.backoffMultiplier ^ (attempt - 1)

/-- Attempt `i` failed with an error the policy classifies as retryable. -/
def attemptRetryable (cfg : RetryConfig) (op : Nat → Except String JValue) (i : Nat) :
    Bool :=
  match op i with
  | .error e => isRetryableError cfg e
  | .ok _ => false

lemma retryLoop_skip (cfg : RetryConfig) (op : Nat → Except String JValue) :
    ∀ (d a fuel : Nat) (le : Option String) (tot : ℚ) (sl : List ℚ),
      d ≤ fuel →
      a + d ≤ cfg.maxRetries →
      (∀ i, a ≤ i → i < a + d → attemptRetryable cfg op i = true) →
      ∃ le', retryLoop cfg op fuel a le tot sl =
        retryLoop cfg op (fuel - d) (a + d) le'
          (tot + ((List.range' a d).map (delayAt cfg)).sum)
          (((List.range' a d).map (delayAt cfg)).reverse ++ sl) := by
  intro d
  induction d with
  | zero =>
    intro a fuel le tot sl hdf had herr
    exact ⟨le, by simp⟩
  | succ d ih =>
    intro a fuel le tot sl hdf had herr
    obtain ⟨f, rfl⟩ : ∃ f, fuel = f + 1 := ⟨fuel - 1, by omega⟩
    have hra := herr a (Nat.le_refl a) (by omega)
    rw [attemptRetryable] at hra
    cases hoe : op a with
    | ok v0 =>
      rw [hoe] at hra
      simp only [] at hra
      exact absurd hra (by decide)
    | error e0 =>
      rw [hoe] at hra
      simp only [] at hra
      have hre : isRetryableError cfg e0 = true := hra
      have hstep : retryLoop cfg op (f + 1) a le tot sl =
          retryLoop cfg op f (a + 1) (some e0) (tot + delayAt cfg a)
            (delayAt cfg a :: sl) := by
        rw [retryLoop, hoe]
        simp only []
        rw [if_neg (by simp [hre]), if_neg (by omega)]
        rfl
      obtain ⟨le', hrec⟩ := ih (a + 1) f (some e0) (tot + delayAt cfg a)
        (delayAt cfg a :: sl) (by omega) (by omega)
        (fun i hi1 hi2 => herr i (by omega) (by omega))
      refine ⟨le', ?_⟩
      rw [hstep, hrec]
      have hr1 : List.range' a (d + 1) = a :: List.range' (a + 1) d := by
        rw [List.range'_succ]
      rw [hr1]
      have hsum : tot + delayAt cfg a + ((List.range' (a + 1) d).map (delayAt cfg)).sum =
          tot + ((a :: List.range' (a + 1) d).map (delayAt cfg)).sum := by
        simp [add_assoc]
      rw [hsum]
      have hsl : ((List.range' (a + 1) d).map (delayAt cfg)).reverse ++
            (delayAt cfg a :: sl) =
          ((a :: List.range' (a + 1) d).map (delayAt cfg)).reverse ++ sl := by
        simp
      rw [hsl]
      have hfuel : f - d = f + 1 - (d + 1) := by omega
      have hatt : a + 1 + d = a + (d + 1) := by omega
      rw [hfuel, hatt]

lemma executeWithRetry_ok (cfg : RetryConfig) (op : Nat → Except String JValue)
    (k : Nat) (v : JValue) (h1 : 1 ≤ k) (hk : k ≤ cfg.maxRetries)
    (herr : ∀ i ∈ List.range' 1 (k - 1), attemptRetryable cfg op i = true)
    (hok : op k = .ok v) :
    executeWithRetry cfg op =
      { success := true, value := some v, attempts := k,
        totalDelayMs := ((List.range' 1 (k - 1)).map (delayAt cfg)).sum,
        sleeps := (List.range' 1 (k - 1)).map (delayAt cfg) } := by
  obtain ⟨le', hskip⟩ := retryLoop_skip cfg op (k - 1) 1 cfg.maxRetries none 0 []
    (by omega) (by omega)
    (fun i hi1 hi2 => herr i (List.mem_range'_1.mpr ⟨hi1, by omega⟩))
  rw [executeWithRetry, hskip]
  have h1k : 1 + (k - 1) = k := by omega
  obtain ⟨g, hg⟩ : ∃ g, cfg.maxRetries - (k - 1) = g + 1 :=
    ⟨cfg.maxRetries - (k - 1) - 1, by omega⟩
  rw [h1k, hg, retryLoop, hok]
  simp

lemma executeWithRetry_fatal (cfg : RetryConfig) (op : Nat → Except String JValue)
    (k : Nat) (e : String) (h1 : 1 ≤ k) (hk : k ≤ cfg.maxRetries)
    (herr : ∀ i ∈ List.range' 1 (k - 1), attemptRetryable cfg op i = true)
    (hke : op k = .error e) (hnr : isRetryableError cfg e = false) :
    executeWithRetry cfg op =
      { success := false, error := some e, attempts := k,
        totalDelayMs := ((List.range' 1 (k - 1)).map (delayAt cfg)).sum,
        sleeps := (List.range' 1 (k - 1)).map (delayAt cfg) } := by
  obtain ⟨le', hskip⟩ := retryLoop_skip cfg op (k - 1) 1 cfg.maxRetries none 0 []
    (by omega) (by omega)
    (fun i hi1 hi2 => herr i (List.mem_range'_1.mpr ⟨hi1, by omega⟩))
  rw [executeWithRetry, hskip]
  have h1k : 1 + (k - 1) = k := by omega
  obtain ⟨g, hg⟩ : ∃ g, cfg.maxRetries - (k - 1) = g + 1 :=
    ⟨cfg.maxRetries - (k - 1) - 1, by omega⟩
  rw [h1k, hg, retryLoop, hke]
  simp only []
  rw [if_pos (by simp [hnr])]
  simp

lemma executeWithRetry_exhaust (cfg : RetryConfig) (op : Nat → Except String JValue)
    (hpos : 1 ≤ cfg.maxRetries)
    (herr : ∀ i ∈ List.range' 1 cfg.maxRetries, attemptRetryable cfg op i = true) :
    (executeWithRetry cfg op).success = false ∧
    (executeWithRetry cfg op).attempts = cfg.maxRetries ∧
    (executeWithRetry cfg op).sleeps =
      (List.range' 1 (cfg.maxRetries - 1)).map (delayAt cfg) := by
  obtain ⟨le', hskip⟩ := retryLoop_skip cfg op (cfg.maxRetries - 1) 1 cfg.maxRetries
    none 0 [] (by omega) (by omega)
    (fun i hi1 hi2 => herr i (List.mem_range'_1.mpr ⟨hi1, by omega⟩))
  have h1k : 1 + (cfg.maxRetries - 1) = cfg.maxRetries := by omega
  have hg : cfg.maxRetries - (cfg.maxRetries - 1) = 0 + 1 := by omega
  have hlast := herr cfg.maxRetries (List.mem_range'_1.mpr ⟨hpos, by omega⟩)
  rw [attemptRetryable] at hlast
  cases hoe : op cfg.maxRetries with
  | ok v0 =>
    rw [hoe] at hlast
    simp only [] at hlast
    exact absurd hlast (by decide)
  | error e0 =>
    rw [hoe] at hlast
    simp only [] at hlast
    have hfinal : executeWithRetry cfg op =
        { success := false,
          error := some (strOrD (some e0) "Max retries exceeded"),
          attempts := cfg.maxRetries,
          totalDelayMs := 0 + ((List.range' 1 (cfg.maxRetries - 1)).map (delayAt cfg)).sum,
          sleeps := ((((List.range' 1 (cfg.maxRetries - 1)).map (delayAt cfg)).reverse)
            ++ []).reverse } := by
      rw [executeWithRetry, hskip, h1k, hg, retryLoop, hoe]
      simp only []
      rw [if_neg (by simp [hlast])]
      simp
    rw [hfinal]
    refine ⟨rfl, rfl, ?_⟩
    simp

/-- C5: `executeWithRetry` (i) returns success with `attempts = k` when the first
`k-1` attempts fail retryably and attempt `k ≤ maxRetries` succeeds, having slept
exactly `retryDelayMs * backoffMultiplier ^ (i - 1)` after each failed attempt
`i < k` and not after the last; (ii) returns immediately (no further attempts, no
further sleep) when an attempt fails with a non-retryable error; (iii) on exhaustion
performs exactly `maxRetries` attempts with `maxRetries - 1` sleeps — none after the
final attempt. -/
theorem executeWithRetry_spec :
    (∀ (cfg : RetryConfig) (op : Nat → Except String JValue) (k : Nat) (v : JValue),
      1 ≤ k → k ≤ cfg.maxRetries →
      (∀ i ∈ List.range' 1 (k - 1), attemptRetryable cfg op i = true) →
      op k = .ok v →
      executeWithRetry cfg op =
        { success := true, value := some v, attempts := k,
          totalDelayMs := ((List.range' 1 (k - 1)).map (delayAt cfg)).sum,
          sleeps := (List.range' 1 (k - 1)).map (delayAt cfg) }) ∧
    (∀ (cfg : RetryConfig) (op : Nat → Except String JValue) (k : Nat) (e : String),
      1 ≤ k → k ≤ cfg.maxRetries →
      (∀ i ∈ List.range' 1 (k - 1), attemptRetryable cfg op i = true) →
      op k = .error e → isRetryableError cfg e = false →
      executeWithRetry cfg op =
        { success := false, error := some e, attempts := k,
          totalDelayMs := ((List.range' 1 (k - 1)).map (delayAt cfg)).sum,
          sleeps := (List.range' 1 (k - 1)).map (delayAt cfg) }) ∧
    (∀ (cfg : RetryConfig) (op : Nat → Except String JValue),
      1 ≤ cfg.maxRetries →
      (∀ i ∈ List.range' 1 cfg.maxRetries, attemptRetryable cfg op i = true) →
      (executeWithRetry cfg op).success = false ∧
      (executeWithRetry cfg op).attempts = cfg.maxRetries ∧
      (executeWithRetry cfg op).sleeps =
        (List.range' 1 (cfg.maxRetries - 1)).map (delayAt cfg)) :=
  ⟨fun cfg op k v h1 hk herr hok => executeWithRetry_ok cfg op k v h1 hk herr hok,
   fun cfg op k e h1 hk herr hke hnr => executeWithRetry_fatal cfg op k e h1 hk herr hke hnr,
   fun cfg op hpos herr => executeWithRetry_exhaust cfg op hpos herr⟩

/-- The claim's policy: `maxAttempts = 3` with the default delays and retryable
classes. -/
def cfgC5 : RetryConfig := { maxRetries := 3 }

/-- An operation that fails twice with `Timeout` and succeeds on attempt 3. -/
def opC5 : Nat → Except String JValue :=
  fun n => if n < 3 then .error "Timeout" else .ok (.bool true)

/-- Witness for C5 at the claim's Timeout-twice-then-success instance: success with
`attempts = 3`. -/
theorem executeWithRetry_spec_witness :
    ((1 : Nat) ≤ 3 ∧ 3 ≤ cfgC5.maxRetries ∧
      (∀ i ∈ List.range' 1 (3 - 1), attemptRetryable cfgC5 opC5 i = true) ∧
      opC5 3 = .ok (.bool true)) ∧
    (executeWithRetry cfgC5 opC5).success = true ∧
    (executeWithRetry cfgC5 opC5).attempts = 3 := by
  have h := executeWithRetry_spec.1 cfgC5 opC5 3 (.bool true) (by decide) (by decide)
    (by decide) rfl
  exact ⟨⟨by decide, by decide, by decide, rfl⟩, by rw [h], by rw [h]⟩

/-! ## C8 — guard-evaluation failures degrade to `false` -/

/-- An evaluator that accepts the validators' probe expression `true` and throws on
everything else. -/
def jsEvalBoom : JsEval :=
  fun e _ => if e = "true" then .ok (.bool true) else .error "boom"

/-- A loop node with `maxIterations = 3` and an exit expression. -/
def loopNodeExit : WorkflowNode :=
  { id := "le", type := .loop, label := "LoopExit",
    config := { maxIterations := some 3, exitCondition := some "\x7b\x7bx\x7d\x7d" } }

set_option maxHeartbeats 1600000 in
/-- C8: with a valid node configuration, an error thrown while evaluating a
condition-guard or loop-exit expression degrades the evaluation to `false` instead of
failing the step — the condition step succeeds with branch result `false`, and the
loop step succeeds with `shouldExit` degraded to `false` (so it keeps looping while
within its own bound). -/
theorem guard_eval_degrades_to_false :
    (∀ (jsEval : JsEval) (now : ℚ) (node : WorkflowNode) (ctx : ExecutionContext)
      (m : String),
      (conditionValidateConfig jsEval node.config).isValid = true →
      safeEval jsEval
        (replaceVariables (node.config.expression.getD "") (createSafeContext now ctx))
        (createSafeContext now ctx) = .error m →
      (conditionExecute jsEval now node ctx).success = true ∧
      (conditionExecute jsEval now node ctx).result = false ∧
      (conditionExecute jsEval now node ctx).data.get "result" = .bool false) ∧
    (∀ (jsEval : JsEval) (node : WorkflowNode) (ctx : ExecutionContext)
      (cond : String) (mx : ℚ) (m : String),
      (loopValidateConfig jsEval node.config).isValid = true →
      node.config.exitCondition = some cond →
      node.config.maxIterations = some mx →
      ((((alistGet ctx.nodeVisitCounts node.id).getD 0 + 1 : Nat) : ℚ)) ≤ mx →
      safeEval jsEval
        (replaceVariables cond
          ((((ctx.variables.mergeRight ctx.stepResults).set
            "iteration" (.num (((alistGet ctx.nodeVisitCounts node.id).getD 0 + 1 : Nat) : ℚ))).set
            "loopCount" (.num (((alistGet ctx.nodeVisitCounts node.id).getD 0 + 1 : Nat) : ℚ))).set
            "currentIteration" (.num (((alistGet ctx.nodeVisitCounts node.id).getD 0 + 1 : Nat) : ℚ))))
        ((((ctx.variables.mergeRight ctx.stepResults).set
          "iteration" (.num (((alistGet ctx.nodeVisitCounts node.id).getD 0 + 1 : Nat) : ℚ))).set
          "loopCount" (.num (((alistGet ctx.nodeVisitCounts node.id).getD 0 + 1 : Nat) : ℚ))).set
          "currentIteration" (.num (((alistGet ctx.nodeVisitCounts node.id).getD 0 + 1 : Nat) : ℚ))) =
        .error m →
      (loopExecute jsEval node ctx).success = true ∧
      (loopExecute jsEval node ctx).shouldContinue = true) := by
  constructor
  · intro jsEval now node ctx m hval herr
    have hev : evaluateCondition jsEval now (node.config.expression.getD "") ctx = false := by
      rw [evaluateCondition]
      simp only [herr]
    rw [conditionExecute, if_neg (by simp [hval])]
    simp [hev]
    rfl
  · intro jsEval node ctx cond mx m hval hcond hmx hle herr
    have hex : evaluateExitCondition jsEval cond ctx
        ((alistGet ctx.nodeVisitCounts node.id).getD 0 + 1) = false := by
      rw [evaluateExitCondition]
      simp only [herr]
    have hmaxed : decide
        ((((alistGet ctx.nodeVisitCounts node.id).getD 0 + 1 : Nat) : ℚ) > mx) = false :=
      decide_eq_false (not_lt.mpr hle)
    rw [loopExecute, if_neg (by simp [hval])]
    simp only [hcond, hmx, hmaxed, hex, Bool.false_eq_true, if_false]
    exact ⟨rfl, rfl⟩

/-- Witness for C8: the template expression `{{x}}` (with `x` unbound) makes the
evaluator throw; the condition step still succeeds with result `false`, and the loop
step keeps looping. -/
theorem guard_eval_degrades_witness :
    ((conditionValidateConfig jsEvalBoom condNode.config).isValid = true ∧
      (conditionExecute jsEvalBoom 0 condNode ctxFresh).success = true ∧
      (conditionExecute jsEvalBoom 0 condNode ctxFresh).result = false) ∧
    ((loopValidateConfig jsEvalBoom loopNodeExit.config).isValid = true ∧
      (loopExecute jsEvalBoom loopNodeExit ctxFresh).success = true ∧
      (loopExecute jsEvalBoom loopNodeExit ctxFresh).shouldContinue = true) := by
  have h1 := guard_eval_degrades_to_false.1 jsEvalBoom 0 condNode ctxFresh
    "Expression evaluation failed: boom" (by decide) rfl
  have h2 := guard_eval_degrades_to_false.2 jsEvalBoom loopNodeExit ctxFresh
    "\x7b\x7bx\x7d\x7d" 3 "Expression evaluation failed: boom" (by decide) rfl rfl
    (by norm_num [ctxFresh, alistGet, loopNodeExit]) rfl
  exact ⟨⟨by decide, h1.1, h1.2.1⟩, ⟨by decide, h2.1, h2.2⟩⟩

/-! ## C6: the human-approval lifecycle -/

/-- A pending approval request for execution `x2`, parked at node `ap`. -/
def reqX2 : ApprovalRequest :=
  { executionId := "x2", nodeId := "ap", message := "Please review", data := .obj .nil }

/-- `storePaused` plus the pending approval request for `x2`. -/
def storeApprovalPending : Store :=
  { workflows := [("w2", wfAppr)], executions := [("x2", ctxPaused)],
    approvals := [("x2", reqX2)] }

lemma alistSet_filter_key_of_none {α : Type} (xs : List (String × α)) (k : String) (v : α)
    (h : alistGet xs k = none) :
    (alistSet xs k v).filter (fun p => decide (p.1 = k)) = [(k, v)] := by
  have hfind : xs.find? (fun x => decide (x.1 = k)) = none := by
    simpa [alistGet, Option.map_eq_none'] using h
  have hall : ∀ p ∈ xs, ¬ (decide (p.1 = k) = true) := List.find?_eq_none.mp hfind
  have hany : xs.any (fun x => decide (x.1 = k)) = false := by
    rw [List.any_eq_false]; exact hall
  unfold alistSet
  rw [hany]
  simp only [Bool.false_eq_true, if_false, List.filter_append]
  rw [List.filter_eq_nil_iff.mpr hall]
  simp

/-- C6: executing a human-approval node against a store holding the execution and no
prior request for it succeeds, leaves the stored execution `paused`, and leaves exactly
one `ApprovalRequest` keyed to the execution, pointing at the approval node;
`approve` on a present, unexpired request succeeds, sets the stored execution
`running`, and deletes the request; `reject` on a present request succeeds, sets the
stored execution `failed` with error `"Approval rejected: " ++ (reason or the default
"No reason provided")`, and deletes the request. -/
theorem approval_lifecycle (now : ℚ) (node : WorkflowNode) (ctx : ExecutionContext)
    (st1 st2 st3 : Store) (approvedBy rejectedBy : String)
    (reasonA reasonR : Option String) (addData : Option JValue) :
    ((approvalValidateConfig node.config).isValid = true →
      ∀ ex, getExecution st1 ctx.executionId = some ex →
      ex.executionId = ctx.executionId →
      getApprovalRequest st1 ctx.executionId = none →
      (approvalExecute now node ctx st1).2.success = true ∧
      (approvalExecute now node ctx st1).2.requiresApproval = true ∧
      ((getExecution (approvalExecute now node ctx st1).1 ctx.executionId).map
        (fun c => c.status)) = some .paused ∧
      ∃ req : ApprovalRequest,
        ((approvalExecute now node ctx st1).1.approvals.filter
          (fun p => decide (p.1 = ctx.executionId))) = [(ctx.executionId, req)] ∧
        req.executionId = ctx.executionId ∧ req.nodeId = node.id) ∧
    (∀ (executionId : String) (approval : ApprovalRequest) (ex : ExecutionContext),
      getApprovalRequest st2 executionId = some approval →
      approval.timeoutAt = none →
      getExecution st2 executionId = some ex →
      ex.executionId = executionId →
      (approvalApprove now st2 executionId approvedBy reasonA addData).2 = (true, none) ∧
      ((getExecution (approvalApprove now st2 executionId approvedBy reasonA addData).1
        executionId).map (fun c => c.status)) = some .running ∧
      getApprovalRequest (approvalApprove now st2 executionId approvedBy reasonA addData).1
        executionId = none) ∧
    (∀ (executionId : String) (approval : ApprovalRequest) (ex : ExecutionContext),
      getApprovalRequest st3 executionId = some approval →
      getExecution st3 executionId = some ex →
      ex.executionId = executionId →
      (approvalReject now st3 executionId rejectedBy reasonR).2 = (true, none) ∧
      ((getExecution (approvalReject now st3 executionId rejectedBy reasonR).1
        executionId).map (fun c => c.status)) = some .failed ∧
      ((getExecution (approvalReject now st3 executionId rejectedBy reasonR).1
        executionId).map (fun c => c.error)) =
        some (some ("Approval rejected: " ++ strOrD reasonR "No reason provided")) ∧
      getApprovalRequest (approvalReject now st3 executionId rejectedBy reasonR).1
        executionId = none) := by
  refine ⟨?_, ?_, ?_⟩
  · intro hval ex hex hid hnone
    have hex' : alistGet st1.executions ctx.executionId = some ex := hex
    have hnone' : alistGet st1.approvals ctx.executionId = none := hnone
    simp only [approvalExecute, hval, not_true, if_false, updateExecutionStatus,
      saveApprovalRequest, getExecution, saveExecution, hex', applyUpdates, hid,
      alistGet_set_self, Option.map_some']
    refine ⟨trivial, trivial, trivial, ?_⟩
    exact ⟨_, alistSet_filter_key_of_none st1.approvals ctx.executionId _ hnone', rfl, rfl⟩
  · intro executionId approval ex happ htime hex hid
    have happ' : alistGet st2.approvals executionId = some approval := happ
    have hex' : alistGet st2.executions executionId = some ex := hex
    simp only [approvalApprove, getApprovalRequest, happ', htime, updateExecutionStatus,
      getExecution, hex', saveExecution, deleteApprovalRequest, applyUpdates, hid,
      Bool.false_eq_true, if_false, Option.getD_none, Option.getD_some,
      alistGet_set_self, alistGet_del_self, Option.map_some']
    exact ⟨trivial, trivial, trivial⟩
  · intro executionId approval ex happ hex hid
    have happ' : alistGet st3.approvals executionId = some approval := happ
    have hex' : alistGet st3.executions executionId = some ex := hex
    simp only [approvalReject, getApprovalRequest, happ', updateExecutionStatus,
      getExecution, hex', saveExecution, deleteApprovalRequest, applyUpdates, hid,
      Option.getD_none, Option.getD_some,
      alistGet_set_self, alistGet_del_self, Option.map_some']
    exact ⟨trivial, trivial, trivial, trivial⟩

/-- Witness for C6: a concrete run of the lifecycle against `storePaused` (execute)
and `storeApprovalPending` (approve / reject) for execution `x2`. -/
theorem approval_lifecycle_witness :
    (∃ req : ApprovalRequest,
      ((approvalExecute 5 apprNode ctxPaused storePaused).1.approvals.filter
        (fun p => decide (p.1 = ctxPaused.executionId))) = [(ctxPaused.executionId, req)] ∧
      req.executionId = ctxPaused.executionId ∧ req.nodeId = apprNode.id) ∧
    ((getExecution (approvalExecute 5 apprNode ctxPaused storePaused).1
      ctxPaused.executionId).map (fun c => c.status)) = some .paused ∧
    (approvalApprove 5 storeApprovalPending "x2" "alice" none none).2 = (true, none) ∧
    ((getExecution (approvalApprove 5 storeApprovalPending "x2" "alice" none none).1
      "x2").map (fun c => c.status)) = some .running ∧
    getApprovalRequest (approvalApprove 5 storeApprovalPending "x2" "alice" none none).1
      "x2" = none ∧
    (approvalReject 5 storeApprovalPending "x2" "bob" none).2 = (true, none) ∧
    ((getExecution (approvalReject 5 storeApprovalPending "x2" "bob" none).1 "x2").map
      (fun c => c.status)) = some .failed ∧
    ((getExecution (approvalReject 5 storeApprovalPending "x2" "bob" none).1 "x2").map
      (fun c => c.error)) =
      some (some ("Approval rejected: " ++ strOrD none "No reason provided")) ∧
    getApprovalRequest (approvalReject 5 storeApprovalPending "x2" "bob" none).1
      "x2" = none := by
  have h := approval_lifecycle 5 apprNode ctxPaused storePaused storeApprovalPending
    storeApprovalPending "alice" "bob" none none none
  have h1 := h.1 (by decide) ctxPaused rfl rfl rfl
  have h2 := h.2.1 "x2" reqX2 ctxPaused rfl rfl rfl rfl
  have h3 := h.2.2 "x2" reqX2 ctxPaused rfl rfl rfl
  exact ⟨h1.2.2.2, h1.2.2.1, h2.1, h2.2.1, h2.2.2, h3.1, h3.2.1, h3.2.2.1, h3.2.2.2⟩

/-! ## C1 — loop iteration and loop-exit routing -/

/-- A context mid-run on the loop node with two visits already recorded. -/
def ctxL2 : ExecutionContext :=
  { workflowId := "w1b", executionId := "xB", status := .running, currentNodeId := some "l",
    stepResults := .nil, «variables» := .nil, startedAt := 0, updatedAt := 0,
    nodeStatuses := [], nodeVisitCounts := [("l", 2)], childExecutionIds := [] }

/-- A context whose loop-node visit count has reached the engine option `5`. -/
def ctxL5 : ExecutionContext :=
  { workflowId := "w1c", executionId := "xS5", status := .running, currentNodeId := some "l",
    stepResults := .nil, «variables» := .nil, startedAt := 0, updatedAt := 0,
    nodeStatuses := [], nodeVisitCounts := [("l", 5)], childExecutionIds := [] }

/-- C1 (counterexample): in `wfTwo` the loop node's second outgoing edge to `b` is
unguarded — not a loop-exit edge — yet the run visits `b` once, so on loop exit the
engine does not follow only loop-exit edges; and in `wfSelf` under the engine option
`maxIterations = 5` the loop node (configured with loop `maxIterations = 3`) is visited
5 times — the 4th visit raises nothing — before the run fails with the engine-level
message `Maximum iterations (5) exceeded for node l`, not an `IterationLimitExceeded`
tied to the loop configuration. -/
theorem loop_iteration_counterexample :
    ((wfTwo.edges.filter (fun e => decide (e.source = "l") && decide (e.target = "b"))).all
      (fun e => e.condition = none)) = true ∧
    (wfTwo.edges.filter (fun e => decide (e.source = "l") && decide (e.target = "b"))).length
      = 1 ∧
    ((executeWorkflow rtFail 0 {} wfTwo .nil (some "xT") "xT" {}).map (fun r =>
        ((getExecution r.1 "xT").map (fun c => alistGet c.nodeVisitCounts "b"),
          r.2.status)))
      = some (some (some 1), .completed) ∧
    ((executeWorkflow rtFail 0 { maxIterations := some 5 } wfSelf .nil (some "xS") "xS" {}).map
        (fun r =>
          ((getExecution r.1 "xS").map (fun c => alistGet c.nodeVisitCounts "l"),
            r.2.status, r.2.error)))
      = some (some (some 5), .failed, some "Maximum iterations (5) exceeded for node l") := by
  refine ⟨by decide, by decide, by decide, by decide⟩

/-- C1 (amended): a loop node with `maxIterations = 3` and no exit expression is
executed exactly 3 times in a linear workflow, and the run completes; when the loop
executor reports a falsy `shouldContinue` the engine pushes the targets of ALL the
node's outgoing edges (`getNextNodes`, which never consults edge guards); and a popped
node that was already visited fails the traversal with
`Maximum iterations (N) exceeded for node <id>` only when its visit count has reached
the engine-level `maxIterations` option. -/
theorem loop_iteration_amended :
    (((executeWorkflow rtFail 0 {} wfLin .nil (some "xL") "xL" {}).map (fun r =>
        ((getExecution r.1 "xL").map (fun c => alistGet c.nodeVisitCounts "l"),
          r.2.status)))
      = some (some (some 3), .completed)) ∧
    (∀ (rt : Runtime) (now : ℚ) (opts : ResolvedOptions) (wf : Workflow) (td : JFields)
      (s : EngineState) (node : WorkflowNode) (rest : List WorkflowNode)
      (st2 : Store) (out : NodeOutcome),
      s.stack = node :: rest →
      node.type = NodeType.loop →
      ¬ (s.visited.contains node.id = true ∧
        (alistGet s.ctx.nodeVisitCounts node.id).getD 0 ≥ opts.maxIterations) →
      executeNodeF rt now node (markRunning s.ctx node.id) wf td
        (saveExecution s.store (markRunning s.ctx node.id)) = (st2, out) →
      out.success = true →
      (out.data.get "shouldContinue").truthy = false →
      ∃ s', stepIter rt now opts wf td s = .next s' ∧
        s'.stack = getNextNodes wf node ++ rest) ∧
    (∀ (rt : Runtime) (now : ℚ) (opts : ResolvedOptions) (wf : Workflow) (td : JFields)
      (s : EngineState) (node : WorkflowNode) (rest : List WorkflowNode),
      s.stack = node :: rest →
      s.visited.contains node.id = true →
      (alistGet s.ctx.nodeVisitCounts node.id).getD 0 ≥ opts.maxIterations →
      stepIter rt now opts wf td s =
        .thrown s.store s.ctx node.id
          ("Maximum iterations (" ++ toString opts.maxIterations ++ ") exceeded for node "
            ++ node.id)) := by
  refine ⟨by decide, ?_, ?_⟩
  · intro rt now opts wf td s node rest st2 out hstack hloop hlim hexec hsucc hfalse
    have hna : node.type ≠ NodeType.humanApproval := by rw [hloop]; intro h; cases h
    have hnl : ¬ (node.type = NodeType.loop ∧
        (out.data.get "shouldContinue").truthy = true) := by
      rintro ⟨-, h⟩
      rw [hfalse] at h
      cases h
    rcases stepIter_next_stack rt now opts wf td s node rest st2 out hstack hlim hexec hsucc
      hna hnl with ⟨s', hstep, hstk, -⟩
    refine ⟨s', hstep, ?_⟩
    rw [hstk, if_neg (by rw [hloop]; intro h; cases h)]
  · intro rt now opts wf td s node rest hstack hvis hcount
    exact stepIter_thrown rt now opts wf td s node rest hstack hvis hcount

/-- Witness for C1's amended theorem: the loop node of `wfTwo`, popped at its third
visit, exits and pushes both outgoing-edge targets; and with its count at the engine
cap `5` the pop throws the engine-level message. -/
theorem loop_iteration_amended_witness :
    (∃ s', stepIter rtFail 0 (resolveOptions {}) wfTwo .nil
        { store := {}, ctx := ctxL2, visited := ["l"], stack := [loopNode3] } = .next s' ∧
      s'.stack = getNextNodes wfTwo loopNode3 ++ []) ∧
    (stepIter rtFail 0 (resolveOptions { maxIterations := some 5 }) wfSelf .nil
        { store := {}, ctx := ctxL5, visited := ["l"], stack := [loopNode3] } =
      .thrown {} ctxL5 "l"
        ("Maximum iterations ("
          ++ toString (resolveOptions { maxIterations := some 5 }).maxIterations
          ++ ") exceeded for node " ++ "l")) := by
  constructor
  · exact loop_iteration_amended.2.1 rtFail 0 (resolveOptions {}) wfTwo .nil
      { store := {}, ctx := ctxL2, visited := ["l"], stack := [loopNode3] } loopNode3 []
      _ _ rfl rfl (by decide) rfl (by decide) (by decide)
  · exact loop_iteration_amended.2.2 rtFail 0 (resolveOptions { maxIterations := some 5 })
      wfSelf .nil { store := {}, ctx := ctxL5, visited := ["l"], stack := [loopNode3] }
      loopNode3 [] rfl (by decide) (by decide)

/-! ## C2 — resume re-enters the traversal at the approval node itself -/

/-- C2 (code bug): resuming the paused execution `x2` of `wfAppr` — paused at the
approval gate `ap` with the action `a` still ahead — re-enters the traversal at `ap`,
which re-executes the approval node: the run reports `paused` again with `ap` as the
current node, a fresh `ApprovalRequest` is created, and the downstream action `a` is
never reached (no visit count, no step result), so traversal does not proceed past the
gate. -/
theorem resume_repauses_at_gate :
    ((resumeExecution rtFail 0 (resolveOptions {}) "x2"
        (some (.cons "approved" (.bool true) .nil)) storePaused).2.toOption.map
      (fun r => (r.status, r.stepsExecuted))) = some (.paused, 1) ∧
    (getApprovalRequest (resumeExecution rtFail 0 (resolveOptions {}) "x2"
        (some (.cons "approved" (.bool true) .nil)) storePaused).1 "x2").isSome = true ∧
    ((getExecution (resumeExecution rtFail 0 (resolveOptions {}) "x2"
        (some (.cons "approved" (.bool true) .nil)) storePaused).1 "x2").map
      (fun c => (c.status, c.currentNodeId, alistGet c.nodeVisitCounts "a",
        alistGet c.nodeVisitCounts "ap")))
      = some (.paused, some "ap", none, some 2) := by
  refine ⟨by decide, by decide, by decide⟩

/-! ## C10 — termination of the traversal loop

The potential of a state counts, over the distinct node ids of the workflow, how many
more pops each node admits: every visit-count is capped by the engine `maxIterations`
option (a revisited node at the cap throws), and every `.next` iteration bumps the
popped node's count and marks it visited, so the potential strictly decreases and
`engineFuel` bounds the number of iterations. -/

/-- The termination potential one node id contributes: the visits its counter still
admits below the cap `max 1 maxIterations`, plus one if it is not yet visited. -/
def nodePotential (opts : ResolvedOptions) (counts : List (String × Nat))
    (visited : List String) (id : String) : Nat :=
  (max 1 opts.maxIterations - (alistGet counts id).getD 0) +
    (if visited.contains id then 0 else 1)

/-- The engine potential: the node potentials summed over the distinct node ids. -/
def enginePotential (opts : ResolvedOptions) (wf : Workflow)
    (counts : List (String × Nat)) (visited : List String) : Nat :=
  ((wf.nodes.map (fun n => n.id)).dedup.map (nodePotential opts counts visited)).sum

lemma sum_lt_sum_of_mem {α : Type} {l : List α} {f g : α → Nat} {x : α}
    (hx : x ∈ l) (hlt : g x < f x) (hle : ∀ y ∈ l, g y ≤ f y) :
    (l.map g).sum < (l.map f).sum := by
  induction l with
  | nil => cases hx
  | cons y ys ih =>
    rcases List.mem_cons.mp hx with rfl | hx'
    · have h2 : (ys.map g).sum ≤ (ys.map f).sum :=
        List.sum_le_sum (fun i hi => hle i (List.mem_cons_of_mem _ hi))
      simpa using Nat.add_lt_add_of_lt_of_le hlt h2
    · have h1 : g y ≤ f y := hle y (List.mem_cons_self _ _)
      have h2 := ih hx'
      simpa using Nat.add_lt_add_of_le_of_lt h1 (h2 (fun i hi => hle i (List.mem_cons_of_mem _ hi)))

lemma sum_map_const_nat {α : Type} (l : List α) (c : Nat) :
    (l.map (fun _ => c)).sum = l.length * c := by
  induction l with
  | nil => simp
  | cons x xs ih =>
    rw [List.map_cons, List.sum_cons, ih, List.length_cons, Nat.succ_mul, Nat.add_comm]

lemma nodePotential_bump_self (opts : ResolvedOptions) (counts : List (String × Nat))
    (visited : List String) (id : String)
    (hok : visited.contains id = true →
      (alistGet counts id).getD 0 < opts.maxIterations) :
    nodePotential opts (alistSet counts id ((alistGet counts id).getD 0 + 1))
      (id :: visited) id < nodePotential opts counts visited id := by
  unfold nodePotential
  rw [alistGet_set_self, Option.getD_some]
  have hM : opts.maxIterations ≤ max 1 opts.maxIterations := le_max_right _ _
  have hcons : ((id :: visited).contains id) = true := by simp
  rw [hcons, if_pos rfl]
  by_cases hv : visited.contains id = true
  · rw [if_pos hv]
    have := hok hv
    omega
  · rw [if_neg hv]
    omega

lemma nodePotential_bump_other (opts : ResolvedOptions) (counts : List (String × Nat))
    (visited : List String) (id id' : String) (v : Nat) (h : id' ≠ id) :
    nodePotential opts (alistSet counts id v) (id :: visited) id' =
      nodePotential opts counts visited id' := by
  unfold nodePotential
  rw [alistGet_set_ne counts id id' v h]
  have hc : ((id :: visited).contains id') = visited.contains id' := by
    simp only [List.contains_cons, beq_eq_false_iff_ne.mpr h, Bool.false_or]
  rw [hc]

lemma enginePotential_bump (opts : ResolvedOptions) (wf : Workflow)
    (counts : List (String × Nat)) (visited : List String) (node : WorkflowNode)
    (hmem : node ∈ wf.nodes)
    (hok : visited.contains node.id = true →
      (alistGet counts node.id).getD 0 < opts.maxIterations) :
    enginePotential opts wf
      (alistSet counts node.id ((alistGet counts node.id).getD 0 + 1))
      (node.id :: visited) < enginePotential opts wf counts visited := by
  have hid : node.id ∈ (wf.nodes.map (fun n => n.id)).dedup :=
    List.mem_dedup.mpr (List.mem_map_of_mem _ hmem)
  refine sum_lt_sum_of_mem hid
    (nodePotential_bump_self opts counts visited node.id hok) ?_
  intro y hy
  by_cases h : y = node.id
  · subst h
    exact le_of_lt (nodePotential_bump_self opts counts visited node.id hok)
  · rw [nodePotential_bump_other opts counts visited node.id y _ h]

lemma enginePotential_lt_fuel (opts : ResolvedOptions) (wf : Workflow)
    (counts : List (String × Nat)) (visited : List String) :
    enginePotential opts wf counts visited < engineFuel wf opts := by
  unfold enginePotential engineFuel
  have hle : ((wf.nodes.map (fun n => n.id)).dedup.map
        (nodePotential opts counts visited)).sum ≤
      ((wf.nodes.map (fun n => n.id)).dedup.map
        (fun _ => max 1 opts.maxIterations + 1)).sum := by
    refine List.sum_le_sum ?_
    intro id _
    unfold nodePotential
    have h1 : max 1 opts.maxIterations - (alistGet counts id).getD 0 ≤
        max 1 opts.maxIterations := Nat.sub_le _ _
    have h2 : (if visited.contains id then 0 else 1) ≤ 1 := by split <;> omega
    omega
  rw [sum_map_const_nat] at hle
  omega

lemma getNextNodes_subset (wf : Workflow) (cn : WorkflowNode) (n : WorkflowNode)
    (h : n ∈ getNextNodes wf cn) : n ∈ wf.nodes := by
  unfold getNextNodes at h
  rcases List.mem_filterMap.mp h with ⟨e, -, hf⟩
  exact List.mem_of_find?_eq_some hf

lemma getConditionalNextNodes_subset (wf : Workflow) (cn : WorkflowNode) (b : Bool)
    (n : WorkflowNode) (h : n ∈ getConditionalNextNodes wf cn b) : n ∈ wf.nodes := by
  unfold getConditionalNextNodes at h
  cases b
  · rw [if_neg (by simp)] at h
    rcases List.mem_filterMap.mp h with ⟨e, -, hf⟩
    exact List.mem_of_find?_eq_some hf
  · rw [if_pos rfl] at h
    rcases List.mem_filterMap.mp h with ⟨e, -, hf⟩
    exact List.mem_of_find?_eq_some hf

lemma stepIter_next_inv (rt : Runtime) (now : ℚ) (opts : ResolvedOptions)
    (wf : Workflow) (td : JFields) (s s' : EngineState)
    (hstep : stepIter rt now opts wf td s = .next s') :
    ∃ node rest, s.stack = node :: rest ∧
      s'.visited = node.id :: s.visited ∧
      s'.ctx.nodeVisitCounts =
        alistSet s.ctx.nodeVisitCounts node.id
          ((alistGet s.ctx.nodeVisitCounts node.id).getD 0 + 1) ∧
      ¬ (s.visited.contains node.id = true ∧
        (alistGet s.ctx.nodeVisitCounts node.id).getD 0 ≥ opts.maxIterations) ∧
      (∀ n ∈ s'.stack, n = node ∨ n ∈ rest ∨ n ∈ getNextNodes wf node ∨
        ∃ b, n ∈ getConditionalNextNodes wf node b) := by
  cases hstack : s.stack with
  | nil =>
    unfold stepIter at hstep
    rw [hstack] at hstep
    cases hstep
  | cons node rest =>
    unfold stepIter at hstep
    rw [hstack] at hstep
    simp only [] at hstep
    by_cases hlim : s.visited.contains node.id = true ∧
        (alistGet s.ctx.nodeVisitCounts node.id).getD 0 ≥ opts.maxIterations
    · rw [if_pos hlim] at hstep
      cases hstep
    · rw [if_neg hlim] at hstep
      cases hout : executeNodeF rt now node (markRunning s.ctx node.id) wf td
          (saveExecution s.store (markRunning s.ctx node.id)) with
      | mk st2 out =>
        simp only [hout] at hstep
        by_cases hsucc : out.success = true
        · simp only [hsucc, not_true_eq_false, if_false, Bool.not_true] at hstep
          by_cases happr : node.type = NodeType.humanApproval
          · rw [if_pos happr] at hstep
            cases hstep
          · rw [if_neg happr] at hstep
            by_cases hloop : node.type = NodeType.loop ∧
                (out.data.get "shouldContinue").truthy = true
            · rw [if_pos hloop] at hstep
              cases hstep
              refine ⟨node, rest, rfl, rfl, rfl, hlim, ?_⟩
              intro n hn
              rcases List.mem_cons.mp hn with rfl | hn'
              · exact Or.inl rfl
              · exact Or.inr (Or.inl hn')
            · rw [if_neg hloop] at hstep
              cases hstep
              refine ⟨node, rest, rfl, rfl, rfl, hlim, ?_⟩
              intro n hn
              by_cases hcond : node.type = NodeType.condition
              · rw [if_pos hcond] at hn
                rcases List.mem_append.mp hn with h | h
                · exact Or.inr (Or.inr (Or.inr ⟨_, h⟩))
                · exact Or.inr (Or.inl h)
              · rw [if_neg hcond] at hn
                rcases List.mem_append.mp hn with h | h
                · exact Or.inr (Or.inr (Or.inl h))
                · exact Or.inr (Or.inl h)
        · rw [if_pos hsucc] at hstep
          cases hstep

lemma runLoop_some (rt : Runtime) (now : ℚ) (opts : ResolvedOptions) (wf : Workflow)
    (td : JFields) :
    ∀ (fuel : Nat) (s : EngineState),
      (∀ n ∈ s.stack, n ∈ wf.nodes) →
      enginePotential opts wf s.ctx.nodeVisitCounts s.visited < fuel →
      (runLoop rt now opts wf td fuel s).isSome = true := by
  intro fuel
  induction fuel with
  | zero =>
    intro s _ hf
    exact absurd hf (Nat.not_lt_zero _)
  | succ fuel ih =>
    intro s hsub hf
    rw [runLoop]
    by_cases hstop : (s.stack.isEmpty || decide (s.ctx.status ≠ .running)) = true
    · rw [if_pos hstop]
      rfl
    · rw [if_neg hstop]
      cases hstep : stepIter rt now opts wf td s with
      | next s1 =>
        rcases stepIter_next_inv rt now opts wf td s s1 hstep with
          ⟨node, rest, hstack, hvis, hcounts, hlim, hstk⟩
        have hnode : node ∈ wf.nodes :=
          hsub node (by rw [hstack]; exact List.mem_cons_self _ _)
        have hok : s.visited.contains node.id = true →
            (alistGet s.ctx.nodeVisitCounts node.id).getD 0 < opts.maxIterations := by
          intro hv
          by_contra hge
          exact hlim ⟨hv, Nat.le_of_not_lt hge⟩
        have hdec : enginePotential opts wf s1.ctx.nodeVisitCounts s1.visited <
            enginePotential opts wf s.ctx.nodeVisitCounts s.visited := by
          rw [hcounts, hvis]
          exact enginePotential_bump opts wf _ _ node hnode hok
        have hsub1 : ∀ n ∈ s1.stack, n ∈ wf.nodes := by
          intro n hn
          rcases hstk n hn with rfl | hn' | hn' | ⟨b, hn'⟩
          · exact hnode
          · exact hsub n (by rw [hstack]; exact List.mem_cons_of_mem _ hn')
          · exact getNextNodes_subset wf node n hn'
          · exact getConditionalNextNodes_subset wf node b n hn'
        exact ih s1 hsub1 (lt_of_lt_of_le hdec (Nat.lt_succ_iff.mp hf))
      | exitLoop st ctx => rfl
      | thrown st ctx nodeId msg => rfl

lemma executeFromNode_isSome (rt : Runtime) (now : ℚ) (opts : ResolvedOptions)
    (wf : Workflow) (ctx : ExecutionContext) (startNode : WorkflowNode) (td : JFields)
    (st : Store) (fuel : Nat)
    (hnode : startNode ∈ wf.nodes)
    (hpot : enginePotential opts wf ctx.nodeVisitCounts [] < fuel) :
    (executeFromNode rt now opts wf ctx startNode td st fuel).isSome = true := by
  unfold executeFromNode
  have h := runLoop_some rt now opts wf td fuel
    { store := st, ctx := ctx, visited := [], stack := [startNode] }
    (by
      intro n hn
      rcases List.mem_cons.mp hn with rfl | h0
      · exact hnode
      · exact absurd h0 (List.not_mem_nil _))
    hpot
  obtain ⟨v, hv⟩ := Option.isSome_iff_exists.mp h
  rw [hv]
  rfl

/-- C10: the traversal loop terminates on every workflow and input — `executeWorkflow`
(whose fuel budget is `engineFuel`) always produces a result; each `.next` iteration
increments the popped node's visit count; and a popped node that was already visited
and whose count has reached the engine-level `maxIterations` option throws instead of
continuing. -/
theorem engine_terminates :
    (∀ (rt : Runtime) (now : ℚ) (o : ExecutionOptions) (wf : Workflow) (input : JFields)
      (idOpt : Option String) (genId : String) (st : Store),
      (executeWorkflow rt now o wf input idOpt genId st).isSome = true) ∧
    (∀ (rt : Runtime) (now : ℚ) (opts : ResolvedOptions) (wf : Workflow) (td : JFields)
      (s s' : EngineState) (node : WorkflowNode) (rest : List WorkflowNode),
      s.stack = node :: rest →
      stepIter rt now opts wf td s = .next s' →
      alistGet s'.ctx.nodeVisitCounts node.id =
        some ((alistGet s.ctx.nodeVisitCounts node.id).getD 0 + 1)) ∧
    (∀ (rt : Runtime) (now : ℚ) (opts : ResolvedOptions) (wf : Workflow) (td : JFields)
      (s : EngineState) (node : WorkflowNode) (rest : List WorkflowNode),
      s.stack = node :: rest →
      s.visited.contains node.id = true →
      (alistGet s.ctx.nodeVisitCounts node.id).getD 0 ≥ opts.maxIterations →
      ∃ st ctx msg, stepIter rt now opts wf td s = .thrown st ctx node.id msg) := by
  refine ⟨?_, ?_, ?_⟩
  · intro rt now o wf input idOpt genId st
    simp only [executeWorkflow]
    cases hstart : findStartNode wf with
    | none => rfl
    | some startNode =>
      have hnode : startNode ∈ wf.nodes :=
        List.mem_of_find?_eq_some (by simpa [findStartNode] using hstart)
      rw [Option.isSome_map']
      exact executeFromNode_isSome rt now (resolveOptions o) wf _ startNode input _
        (engineFuel wf (resolveOptions o)) hnode (enginePotential_lt_fuel _ _ _ _)
  · intro rt now opts wf td s s' node rest hstack hstep
    rcases stepIter_next_inv rt now opts wf td s s' hstep with
      ⟨node', rest', hstack', -, hcounts, -, -⟩
    rw [hstack] at hstack'
    cases hstack'
    rw [hcounts]
    exact alistGet_set_self _ _ _
  · intro rt now opts wf td s node rest hstack hvis hcount
    exact ⟨s.store, s.ctx, _, stepIter_thrown rt now opts wf td s node rest hstack hvis hcount⟩

/-- Witness for C10: the cyclic workflow `wfSelf` still yields a result; the trigger
pop bumps its count from 0 to 1; a loop-node pop at the engine cap throws. -/
theorem engine_terminates_witness :
    (executeWorkflow rtFail 0 {} wfSelf .nil (some "xW") "xW" {}).isSome = true ∧
    (∃ s', stepIter rtFail 0 (resolveOptions {}) wfSelf .nil
        { store := {}, ctx := ctxFresh, visited := [], stack := [trigNode] } = .next s' ∧
      alistGet s'.ctx.nodeVisitCounts trigNode.id =
        some ((alistGet ctxFresh.nodeVisitCounts trigNode.id).getD 0 + 1)) ∧
    (∃ st ctx msg, stepIter rtFail 0 (resolveOptions { maxIterations := some 5 }) wfSelf .nil
        { store := {}, ctx := ctxL5, visited := ["l"], stack := [loopNode3] } =
      .thrown st ctx loopNode3.id msg) := by
  refine ⟨engine_terminates.1 rtFail 0 {} wfSelf .nil (some "xW") "xW" {}, ⟨_, rfl, ?_⟩, ?_⟩
  · exact engine_terminates.2.1 rtFail 0 (resolveOptions {}) wfSelf .nil
      { store := {}, ctx := ctxFresh, visited := [], stack := [trigNode] } _ trigNode []
      rfl rfl
  · exact engine_terminates.2.2 rtFail 0 (resolveOptions { maxIterations := some 5 })
      wfSelf .nil { store := {}, ctx := ctxL5, visited := ["l"], stack := [loopNode3] }
      loopNode3 [] rfl (by decide) (by decide)
